import Mathlib

set_option maxHeartbeats 1000000
set_option autoImplicit false

/-! # Verification of the polars-arrow FFI interchange layer and DictionaryArray

Shallow embedding of `crates/polars-arrow/src/ffi/array.rs` and
`crates/polars-arrow/src/array/dictionary/mod.rs`.

Modelling conventions.  Machine integers are `Int`/`Nat` with explicit
wrap-around where the code casts (an `as usize` cast of a signed 64-bit field
wraps modulo `2^64`); a raw pointer is an `Option` value (`none` is a null
pointer); a read past the end of a foreign allocation, a failed `expect`, and
an `unreachable` arm are the `none` of an outer `Option` layer (stuck /
undefined behaviour, distinct from a recoverable error); fallible code returns
`Except FfiError`.  Each `FfiError` constructor corresponds to one failure
site in the source and carries exactly the values interpolated into that
site's message, so a property of the error value is a property of the
rendered message. -/

/-- `2^64`, the wrap-around modulus of `usize` casts of 64-bit fields. -/
def two64 : Int := 18446744073709551616

/-- `2^63`: a signed 64-bit quantity is representable iff below this bound. -/
def two63 : Nat := 9223372036854775808

/-- The `as usize` cast of a signed 64-bit value (wraps modulo `2^64`). -/
def usize_cast (x : Int) : Nat := (x % two64).toNat

/-- The `try_into::<usize>()` conversion of a signed 64-bit value; fails iff
the value is negative (the call sites unwrap it with `expect`, a panic). -/
def usize_try (x : Int) : Option Nat := if 0 ≤ x then some x.toNat else none

/-- The integer key tags (`IntegerType` in `datatypes`). -/
inductive IntegerType where
  | Int8 | Int16 | Int32 | Int64 | Int128
  | UInt8 | UInt16 | UInt32 | UInt64
deriving DecidableEq

/-- The primitive physical representations (`PrimitiveType`), reduced to the
lanes the claims exercise; the buffer-geometry rules treat all of them alike. -/
inductive PrimitiveType where
  | Int8 | Int16 | Int32 | Int64 | Int128
  | UInt8 | UInt16 | UInt32 | UInt64
  | Float32 | Float64
deriving DecidableEq

/-- The logical type descriptor (`ArrowDataType`), reduced to the constructors
the FFI layer inspects.  `Struct` fields and `Extension` wrappers are omitted
from the model, so `to_logical_type` is the identity here. -/
inductive ArrowDataType where
  | Null
  | Boolean
  | Primitive (pt : PrimitiveType)
  | Utf8
  | LargeUtf8
  | Binary
  | LargeBinary
  | FixedSizeBinary (size : Nat)
  | List (inner : ArrowDataType)
  | LargeList (inner : ArrowDataType)
  | FixedSizeList (inner : ArrowDataType) (size : Nat)
  | Struct
  | Map (inner : ArrowDataType)
  | Dictionary (key : IntegerType) (value : ArrowDataType) (is_ordered : Bool)
  | BinaryView
  | Utf8View
deriving DecidableEq

/-- The physical type dispatch tag (`PhysicalType`). -/
inductive PhysicalType where
  | Null
  | Boolean
  | Primitive (pt : PrimitiveType)
  | Utf8
  | LargeUtf8
  | Binary
  | LargeBinary
  | FixedSizeBinary
  | List
  | LargeList
  | FixedSizeList
  | Struct
  | Map
  | Dictionary (key : IntegerType)
  | BinaryView
  | Utf8View
deriving DecidableEq

/-- `ArrowDataType::to_logical_type` (identity in this reduced model, which
has no `Extension` wrapper). -/
def ArrowDataType.to_logical_type (d : ArrowDataType) : ArrowDataType := d

/-- `ArrowDataType::to_physical_type`. -/
def ArrowDataType.to_physical_type : ArrowDataType → PhysicalType
  | .Null => .Null
  | .Boolean => .Boolean
  | .Primitive pt => .Primitive pt
  | .Utf8 => .Utf8
  | .LargeUtf8 => .LargeUtf8
  | .Binary => .Binary
  | .LargeBinary => .LargeBinary
  | .FixedSizeBinary _ => .FixedSizeBinary
  | .List _ => .List
  | .LargeList _ => .LargeList
  | .FixedSizeList _ _ => .FixedSizeList
  | .Struct => .Struct
  | .Map _ => .Map
  | .Dictionary k _ _ => .Dictionary k
  | .BinaryView => .BinaryView
  | .Utf8View => .Utf8View

/-- Recoverable failures.  One constructor per `polars_bail!` site, carrying
exactly the values interpolated into that site's format string. -/
inductive FfiError where
  | dict_dtype_key_mismatch
  | dict_dtype_value_mismatch
  | dict_dtype_not_dictionary
  | dict_key_oob (key : Int) (len : Nat)
  | non_null_buffers (dtype : ArrowDataType)
  | buffers_not_aligned (dtype : ArrowDataType) (index : Nat)
  | must_have_buffer (dtype : ArrowDataType) (index : Nat)
  | non_null_buffer (dtype : ArrowDataType) (index : Nat)
  | children_null (dtype : ArrowDataType)
  | must_have_child (dtype : ArrowDataType) (index : Nat)
  | non_null_child (dtype : ArrowDataType) (index : Nat)
  | dictionary_null (dtype : ArrowDataType)
  | no_such_child (dtype : ArrowDataType) (index : Nat)
deriving DecidableEq

/-! ## The DictionaryArray entity (`array/dictionary/mod.rs`) -/

/-- `PrimitiveArray<K>` for dictionary keys: a backing buffer of slot values,
a logical window `[offset, offset + len)` into it, and an optional validity
bitmap over the same backing (windowed by the same offsets, as in the source
where slicing slices values and validity together). -/
structure PrimM where
  buf : List Int
  offset : Nat
  len : Nat
  validity : Option (List Bool)
deriving DecidableEq

/-- Internal consistency of a `PrimitiveArray` value: the window lies inside
the backing buffer and the validity bitmap covers the backing buffer. -/
def PrimM.wfb (p : PrimM) : Bool :=
  decide (p.offset + p.len ≤ p.buf.length) &&
    (match p.validity with
     | none => true
     | some v => v.length == p.buf.length)

/-- `PrimitiveArray::values()`: the raw slot values of the current window,
with no regard for validity. -/
def PrimM.values (p : PrimM) : List Int :=
  (p.buf.drop p.offset).take p.len

/-- The validity bits of the current window. -/
def PrimM.validity_window (p : PrimM) : Option (List Bool) :=
  p.validity.map (fun v => (v.drop p.offset).take p.len)

/-- `PrimitiveArray::null_count()`: number of `false` bits in the windowed
validity (`0` when there is no validity). -/
def PrimM.null_count (p : PrimM) : Nat :=
  match p.validity_window with
  | none => 0
  | some v => v.count false

/-- Whether slot `i` of the window is valid (non-null). -/
def PrimM.is_valid (p : PrimM) (i : Nat) : Bool :=
  match p.validity with
  | none => true
  | some v => v.getD (p.offset + i) true

/-- `DictionaryKey::always_fits_usize()` per key tag: `true` exactly for the
unsigned key types (on a 64-bit host). -/
def IntegerType.always_fits_usize : IntegerType → Bool
  | .UInt8 | .UInt16 | .UInt32 | .UInt64 => true
  | _ => false

/-- The value range of each key tag, as the set of `Int`s the machine type
can hold. -/
def IntegerType.in_range : IntegerType → Int → Bool
  | .Int8, v => decide (-128 ≤ v ∧ v ≤ 127)
  | .Int16, v => decide (-32768 ≤ v ∧ v ≤ 32767)
  | .Int32, v => decide (-2147483648 ≤ v ∧ v ≤ 2147483647)
  | .Int64, v => decide (-9223372036854775808 ≤ v ∧ v ≤ 9223372036854775807)
  | .Int128, v => decide (-170141183460469231731687303715884105728 ≤ v ∧
      v ≤ 170141183460469231731687303715884105727)
  | .UInt8, v => decide (0 ≤ v ∧ v ≤ 255)
  | .UInt16, v => decide (0 ≤ v ∧ v ≤ 65535)
  | .UInt32, v => decide (0 ≤ v ∧ v ≤ 4294967295)
  | .UInt64, v => decide (0 ≤ v ∧ v < two64)

/-- The values array seen by `DictionaryArray::try_new`: only its dtype and
its length are consulted there. -/
structure ValuesArr where
  dtype : ArrowDataType
  len : Nat
deriving DecidableEq

/-- The `DictionaryArray<K>` record. -/
structure DictionaryArrayM where
  dtype : ArrowDataType
  keys : PrimM
  values : ValuesArr
deriving DecidableEq

/-- `check_dtype` (array/dictionary/mod.rs): the dtype must be a logical
dictionary whose key tag matches `K` and whose value type matches the values
array's dtype on logical types. -/
def check_dtype (key_type : IntegerType) (dtype values_dtype : ArrowDataType) :
    Except FfiError Unit :=
  match dtype.to_logical_type with
  | .Dictionary key value _ =>
    if key ≠ key_type then .error .dict_dtype_key_mismatch
    else if value.to_logical_type ≠ values_dtype.to_logical_type then
      .error .dict_dtype_value_mismatch
    else .ok ()
  | _ => .error .dict_dtype_not_dictionary

/-- Whether a raw key slot value is a valid index into a pool of `len`
values: representable as a machine-word index and strictly below `len`. -/
def good_key (len : Nat) (k : Int) : Bool :=
  decide (0 ≤ k) && decide (k < two64) && decide (k.toNat < len)

/-- Modelled from the spec: `check_indexes` of `array/specification.rs` is not
under `src/`.  Per the spec it validates every key of the given raw slice as
"representable as a machine index and `< values.length()`", failing with an
out-of-bounds error citing the offending index and the pool size.  The scan
stops at the first offender (`try_for_each`). -/
def check_indexes (keys : List Int) (len : Nat) : Except FfiError Unit :=
  match keys with
  | [] => .ok ()
  | k :: ks =>
    if good_key len k then check_indexes ks len
    else .error (.dict_key_oob k len)

/-- Modelled from the spec: `check_indexes_unchecked` of
`array/specification.rs` is not under `src/`.  It is used when the key type
declares that conversion to a machine word always succeeds, so only the range
against the pool size is checked; failure cites the offending index and the
pool size. -/
def check_indexes_unchecked (keys : List Int) (len : Nat) : Except FfiError Unit :=
  match keys with
  | [] => .ok ()
  | k :: ks =>
    if k.toNat < len then check_indexes_unchecked ks len
    else .error (.dict_key_oob k len)

/-- `DictionaryArray::try_new` (array/dictionary/mod.rs, lines 164-186):
checks the dtype, then — unless the keys are all-null — scans the raw slot
values `keys.values()` of the key window against the pool length, and finally
assembles the record. -/
def DictionaryArray.try_new (K : IntegerType) (dtype : ArrowDataType)
    (keys : PrimM) (values : ValuesArr) : Except FfiError DictionaryArrayM :=
  match check_dtype K dtype values.dtype with
  | .error e => .error e
  | .ok _ =>
    if keys.null_count ≠ keys.len then
      match (if K.always_fits_usize then
               check_indexes_unchecked keys.values values.len
             else
               check_indexes keys.values values.len) with
      | .error e => .error e
      | .ok _ => .ok ⟨dtype, keys, values⟩
    else .ok ⟨dtype, keys, values⟩

/-- `DictionaryArray::len` = `keys.len()`. -/
def DictionaryArray.len (d : DictionaryArrayM) : Nat := d.keys.len

/-- `PrimitiveArray::slice`: panics (modelled as `none`) iff the requested
window exceeds the current one; otherwise narrows values and validity. -/
def PrimM.slice (p : PrimM) (offset length : Nat) : Option PrimM :=
  if p.len < offset + length then none
  else some { p with offset := p.offset + offset, len := length }

/-- `DictionaryArray::slice` (lines 308-313): delegates to the keys, leaving
`dtype` and `values` untouched. -/
def DictionaryArray.slice (d : DictionaryArrayM) (offset length : Nat) :
    Option DictionaryArrayM :=
  (d.keys.slice offset length).map (fun k => { d with keys := k })

/-- `Splitable::_split_at_unchecked` for `PrimitiveArray` (modelled from the
spec: the primitive implementation is not under `src/`; per the spec sliced
copies share the underlying key buffer and each window is independent). -/
def PrimM.split_at_unchecked (p : PrimM) (o : Nat) : PrimM × PrimM :=
  ({ p with len := o },
   { p with offset := p.offset + o, len := p.len - o })

/-- `Splitable::_split_at_unchecked` for `DictionaryArray` (lines 436-452):
splits the keys, clones the dtype, and clones the shared values pool by
reference into both halves. -/
def DictionaryArray.split_at_unchecked (d : DictionaryArrayM) (o : Nat) :
    DictionaryArrayM × DictionaryArrayM :=
  let ks := d.keys.split_at_unchecked o
  (⟨d.dtype, ks.1, d.values⟩, ⟨d.dtype, ks.2, d.values⟩)

/-- `Splitable::check_bound` for `DictionaryArray` (line 432). -/
def DictionaryArray.check_bound (d : DictionaryArrayM) (offset : Nat) : Bool :=
  decide (offset < DictionaryArray.len d)

/-- Membership of an absolute backing-buffer position in a key window. -/
def PrimM.in_window (p : PrimM) (i : Nat) : Prop :=
  p.offset ≤ i ∧ i < p.offset + p.len

/-! ## Helper lemmas on the key scan and key windows -/

theorem good_key_of_repr (len : Nat) (k : Int) (h0 : 0 ≤ k) (h1 : k < two64) :
    good_key len k = decide (k.toNat < len) := by
  simp [good_key, h0, h1]

theorem repr_of_in_range_fits (K : IntegerType) (hf : K.always_fits_usize = true)
    (k : Int) (hr : K.in_range k = true) : 0 ≤ k ∧ k < two64 := by
  cases K <;> simp [IntegerType.always_fits_usize] at hf <;>
    simp [IntegerType.in_range, two64] at hr <;>
    (simp [two64]; omega)

theorem check_indexes_ok (l : List Int) (len : Nat)
    (h : ∀ k ∈ l, good_key len k = true) : check_indexes l len = .ok () := by
  induction l with
  | nil => rfl
  | cons k ks ih =>
    have hk := h k (by simp)
    simp only [check_indexes, hk, if_true]
    exact ih (fun x hx => h x (by simp [hx]))

theorem check_indexes_err (l : List Int) (len : Nat)
    (h : ∃ k ∈ l, good_key len k = false) :
    ∃ k ∈ l, good_key len k = false ∧
      check_indexes l len = .error (.dict_key_oob k len) := by
  induction l with
  | nil => simp at h
  | cons k ks ih =>
    by_cases hk : good_key len k = true
    · obtain ⟨k0, hmem, hbad⟩ := h
      have hks : k0 ∈ ks := by
        rcases List.mem_cons.mp hmem with h1 | h1
        · rw [h1] at hbad; rw [hk] at hbad; cases hbad
        · exact h1
      obtain ⟨k1, hm, hb, he⟩ := ih ⟨k0, hks, hbad⟩
      exact ⟨k1, by simp [hm], hb, by simp only [check_indexes, hk, if_true, he]⟩
    · have hk2 : good_key len k = false := by
        cases hgk : good_key len k
        · rfl
        · exact absurd hgk hk
      refine ⟨k, by simp, hk2, ?_⟩
      simp only [check_indexes, hk2, Bool.false_eq_true, if_false]

theorem check_indexes_unchecked_ok (l : List Int) (len : Nat)
    (h : ∀ k ∈ l, good_key len k = true) :
    check_indexes_unchecked l len = .ok () := by
  induction l with
  | nil => rfl
  | cons k ks ih =>
    have hk := h k (by simp)
    have hlt : k.toNat < len := by
      have := of_decide_eq_true (by
        simp only [good_key, Bool.and_eq_true] at hk
        exact hk.2)
      exact this
    simp only [check_indexes_unchecked, hlt, if_true]
    exact ih (fun x hx => h x (by simp [hx]))

theorem check_indexes_unchecked_err (l : List Int) (len : Nat)
    (hrepr : ∀ k ∈ l, 0 ≤ k ∧ k < two64)
    (h : ∃ k ∈ l, good_key len k = false) :
    ∃ k ∈ l, good_key len k = false ∧
      check_indexes_unchecked l len = .error (.dict_key_oob k len) := by
  induction l with
  | nil => simp at h
  | cons k ks ih =>
    have hrk := hrepr k (by simp)
    by_cases hlt : k.toNat < len
    · have hk : good_key len k = true := by
        rw [good_key_of_repr len k hrk.1 hrk.2]
        exact decide_eq_true hlt
      obtain ⟨k0, hmem, hbad⟩ := h
      have hks : k0 ∈ ks := by
        rcases List.mem_cons.mp hmem with h1 | h1
        · rw [h1] at hbad; rw [hk] at hbad; cases hbad
        · exact h1
      obtain ⟨k1, hm, hb, he⟩ :=
        ih (fun x hx => hrepr x (by simp [hx])) ⟨k0, hks, hbad⟩
      exact ⟨k1, by simp [hm], hb,
        by simp only [check_indexes_unchecked, hlt, if_true, he]⟩
    · have hk : good_key len k = false := by
        rw [good_key_of_repr len k hrk.1 hrk.2]
        exact decide_eq_false hlt
      refine ⟨k, by simp, hk, ?_⟩
      simp only [check_indexes_unchecked, hlt, if_false]

theorem values_length_of_wfb (p : PrimM) (hwf : p.wfb = true) :
    p.values.length = p.len := by
  have h1 : p.offset + p.len ≤ p.buf.length := by
    simp only [PrimM.wfb, Bool.and_eq_true, decide_eq_true_eq] at hwf
    exact hwf.1
  simp [PrimM.values]
  omega

theorem count_false_ne_length_of_true (w : List Bool) (i : Nat)
    (hi : i < w.length) (ht : w.getD i true = true) :
    w.count false ≠ w.length := by
  induction w generalizing i with
  | nil => simp at hi
  | cons b t ih =>
    cases i with
    | zero =>
      simp only [List.getD_cons_zero] at ht
      subst ht
      have hle := List.count_le_length false t
      rw [List.count_cons_of_ne (by simp), List.length_cons]
      omega
    | succ j =>
      simp only [List.length_cons] at hi
      simp only [List.getD_cons_succ] at ht
      have hj : j < t.length := by omega
      have hne := ih j hj ht
      by_cases hb : b = false
      · subst hb
        rw [List.count_cons_self, List.length_cons]
        omega
      · have hb2 : b = true := by
          cases b
          · exact absurd rfl hb
          · rfl
        subst hb2
        rw [List.count_cons_of_ne (by simp), List.length_cons]
        have hle := List.count_le_length false t
        omega

theorem null_count_ne_of_valid (p : PrimM) (hwf : p.wfb = true) (i : Nat)
    (hi : i < p.len) (hv : p.is_valid i = true) : p.null_count ≠ p.len := by
  simp only [PrimM.wfb, Bool.and_eq_true, decide_eq_true_eq] at hwf
  obtain ⟨hwin, hval⟩ := hwf
  cases hvv : p.validity with
  | none =>
    have h0 : p.null_count = 0 := by
      simp [PrimM.null_count, PrimM.validity_window, hvv]
    omega
  | some v =>
    have hvl : v.length = p.buf.length := by
      rw [hvv] at hval; simpa using hval
    have hnc : p.null_count = List.count false ((v.drop p.offset).take p.len) := by
      simp [PrimM.null_count, PrimM.validity_window, hvv]
    have hwl : ((v.drop p.offset).take p.len).length = p.len := by
      simp; omega
    have hgd : ((v.drop p.offset).take p.len).getD i true = true := by
      rw [List.getD_eq_getElem?_getD, List.getElem?_take_of_lt hi, List.getElem?_drop]
      simp only [PrimM.is_valid, hvv] at hv
      rw [List.getD_eq_getElem?_getD] at hv
      exact hv
    have hcc := count_false_ne_length_of_true _ i (by omega) hgd
    intro heq
    apply hcc
    rw [hwl, ← hnc]
    exact heq

deriving instance DecidableEq for Except

/-! ## Claims C2, C3, C8 -/

/-- C2: for every (dtype, keys, values) passing the dtype checks in which some
index `i` holds a non-null key that is not a valid machine-word index into the
pool (not representable, or `≥ values.len()`), `DictionaryArray::try_new`
returns an out-of-bounds error citing an offending key and the pool size, and
constructs nothing. -/
theorem try_new_rejects_out_of_bounds_key (K : IntegerType) (dtype : ArrowDataType)
    (keys : PrimM) (values : ValuesArr)
    (hwf : keys.wfb = true)
    (hrange : ∀ k ∈ keys.values, K.in_range k = true)
    (hdt : check_dtype K dtype values.dtype = .ok ())
    (hbad : ∃ i, i < keys.len ∧ keys.is_valid i = true ∧
      good_key values.len (keys.values.getD i 0) = false) :
    ∃ k ∈ keys.values, good_key values.len k = false ∧
      DictionaryArray.try_new K dtype keys values =
        .error (.dict_key_oob k values.len) := by
  obtain ⟨i, hi, hv, hbadk⟩ := hbad
  have hvl := values_length_of_wfb keys hwf
  have hmem : keys.values.getD i 0 ∈ keys.values := by
    have hlt : i < keys.values.length := by omega
    rw [List.getD_eq_getElem?_getD, List.getElem?_eq_getElem hlt]
    exact List.getElem_mem hlt
  have hne := null_count_ne_of_valid keys hwf i hi hv
  have hex : ∃ k ∈ keys.values, good_key values.len k = false :=
    ⟨keys.values.getD i 0, hmem, hbadk⟩
  cases hfits : K.always_fits_usize with
  | true =>
    have hrepr : ∀ k ∈ keys.values, 0 ≤ k ∧ k < two64 :=
      fun k hk => repr_of_in_range_fits K hfits k (hrange k hk)
    obtain ⟨k, hm, hb, he⟩ := check_indexes_unchecked_err keys.values values.len hrepr hex
    refine ⟨k, hm, hb, ?_⟩
    simp only [DictionaryArray.try_new, hdt, if_pos hne, hfits, if_true, he]
  | false =>
    obtain ⟨k, hm, hb, he⟩ := check_indexes_err keys.values values.len hex
    refine ⟨k, hm, hb, ?_⟩
    simp only [DictionaryArray.try_new, hdt, if_pos hne, hfits, Bool.false_eq_true,
      if_false, he]

/-- C2 witness: keys `[0,1,5]` as `u8` with a pool of 3 values are rejected
citing key 5 and pool size 3. -/
theorem try_new_rejects_out_of_bounds_key_witness :
    ∃ k ∈ PrimM.values ⟨[0, 1, 5], 0, 3, none⟩, good_key 3 k = false ∧
      DictionaryArray.try_new .UInt8 (.Dictionary .UInt8 (.Primitive .Int32) false)
        ⟨[0, 1, 5], 0, 3, none⟩ ⟨.Primitive .Int32, 3⟩ =
        .error (.dict_key_oob k 3) :=
  try_new_rejects_out_of_bounds_key .UInt8
    (.Dictionary .UInt8 (.Primitive .Int32) false)
    ⟨[0, 1, 5], 0, 3, none⟩ ⟨.Primitive .Int32, 3⟩
    (by decide) (by decide) (by decide) ⟨2, by decide⟩

/-- C3 counterexample: the claim says `try_new` succeeds whenever every
NON-NULL key is in bounds, regardless of null-masked slot values.  Here every
non-null key of the window `[0, 7]` with validity `[true, false]` is in bounds
for a pool of 3 values, yet `try_new` fails: the scan reads the raw slot
value 7 that is masked as null. -/
theorem try_new_null_masked_slot_cex :
    check_dtype .UInt8 (.Dictionary .UInt8 (.Primitive .Int32) false)
      (.Primitive .Int32) = .ok () ∧
    (∀ i, i < 2 → PrimM.is_valid ⟨[0, 7], 0, 2, some [true, false]⟩ i = true →
      good_key 3 ((PrimM.values ⟨[0, 7], 0, 2, some [true, false]⟩).getD i 0) = true) ∧
    DictionaryArray.try_new .UInt8 (.Dictionary .UInt8 (.Primitive .Int32) false)
      ⟨[0, 7], 0, 2, some [true, false]⟩ ⟨.Primitive .Int32, 3⟩ =
      .error (.dict_key_oob 7 3) := by
  refine ⟨by decide, by decide, by decide⟩

/-- C3 (amended): unless the keys are all-null (in which case the scan is
skipped and `try_new` succeeds for any slot values), the bounds validation of
`DictionaryArray::try_new` scans every raw slot value of the key window —
null-masked slots included — and `try_new` succeeds iff all of them are valid
machine-word indexes into the pool. -/
theorem try_new_scans_all_window_slots (K : IntegerType) (dtype : ArrowDataType)
    (keys : PrimM) (values : ValuesArr)
    (hrange : ∀ k ∈ keys.values, K.in_range k = true)
    (hdt : check_dtype K dtype values.dtype = .ok ()) :
    DictionaryArray.try_new K dtype keys values = .ok ⟨dtype, keys, values⟩ ↔
      (keys.null_count = keys.len ∨ ∀ k ∈ keys.values, good_key values.len k = true) := by
  by_cases hn : keys.null_count = keys.len
  · simp only [DictionaryArray.try_new, hdt, if_neg (by omega : ¬ keys.null_count ≠ keys.len)]
    simp [hn]
  · constructor
    · intro hok
      right
      by_contra hnot
      push_neg at hnot
      obtain ⟨k0, hm0, hb0⟩ := hnot
      have hb0f : good_key values.len k0 = false := by
        cases hgk : good_key values.len k0
        · rfl
        · exact absurd hgk hb0
      have hex : ∃ k ∈ keys.values, good_key values.len k = false := ⟨k0, hm0, hb0f⟩
      cases hfits : K.always_fits_usize with
      | true =>
        have hrepr : ∀ k ∈ keys.values, 0 ≤ k ∧ k < two64 :=
          fun k hk => repr_of_in_range_fits K hfits k (hrange k hk)
        obtain ⟨k, hm, hb, he⟩ :=
          check_indexes_unchecked_err keys.values values.len hrepr hex
        rw [DictionaryArray.try_new] at hok
        simp only [hdt, if_pos hn, hfits, if_true, he] at hok
        exact Except.noConfusion hok
      | false =>
        obtain ⟨k, hm, hb, he⟩ := check_indexes_err keys.values values.len hex
        rw [DictionaryArray.try_new] at hok
        simp only [hdt, if_pos hn, hfits, Bool.false_eq_true, if_false, he] at hok
        exact Except.noConfusion hok
    · intro hgood
      rcases hgood with hgood | hgood
      · exact absurd hgood hn
      · cases hfits : K.always_fits_usize with
        | true =>
          have he := check_indexes_unchecked_ok keys.values values.len hgood
          simp only [DictionaryArray.try_new, hdt, if_pos hn, hfits, if_true, he]
        | false =>
          have he := check_indexes_ok keys.values values.len hgood
          simp only [DictionaryArray.try_new, hdt, if_pos hn, hfits,
            Bool.false_eq_true, if_false, he]

/-- C3 witness (for the amended claim): all-null keys with wildly
out-of-bounds slot values are accepted; and in-bounds raw slots are accepted. -/
theorem try_new_scans_all_window_slots_witness :
    DictionaryArray.try_new .UInt8 (.Dictionary .UInt8 (.Primitive .Int32) false)
      ⟨[99, 250], 0, 2, some [false, false]⟩ ⟨.Primitive .Int32, 3⟩ =
      .ok ⟨.Dictionary .UInt8 (.Primitive .Int32) false,
        ⟨[99, 250], 0, 2, some [false, false]⟩, ⟨.Primitive .Int32, 3⟩⟩ :=
  (try_new_scans_all_window_slots .UInt8 (.Dictionary .UInt8 (.Primitive .Int32) false)
    ⟨[99, 250], 0, 2, some [false, false]⟩ ⟨.Primitive .Int32, 3⟩
    (by decide) (by decide)).mpr (Or.inl (by decide))

/-- C8: `slice` narrows only the keys window (dtype and the shared values pool
are untouched and the values pool is never resliced), and splitting at a valid
offset `o` yields halves of lengths `o` and `len - o` that share the same
values pool (the same `values` field, cloned by reference) and the same key
backing buffer, with disjoint key windows that cover the original window. -/
theorem dict_slice_split_frame (d : DictionaryArrayM) (o l : Nat)
    (hsl : o + l ≤ d.keys.len) (hsp : o ≤ d.keys.len) :
    (DictionaryArray.slice d o l =
      some ⟨d.dtype, ⟨d.keys.buf, d.keys.offset + o, l, d.keys.validity⟩, d.values⟩) ∧
    DictionaryArray.len (DictionaryArray.split_at_unchecked d o).1 = o ∧
    DictionaryArray.len (DictionaryArray.split_at_unchecked d o).2 =
      DictionaryArray.len d - o ∧
    (DictionaryArray.split_at_unchecked d o).1.dtype = d.dtype ∧
    (DictionaryArray.split_at_unchecked d o).2.dtype = d.dtype ∧
    (DictionaryArray.split_at_unchecked d o).1.values = d.values ∧
    (DictionaryArray.split_at_unchecked d o).2.values = d.values ∧
    (DictionaryArray.split_at_unchecked d o).1.keys.buf = d.keys.buf ∧
    (DictionaryArray.split_at_unchecked d o).2.keys.buf = d.keys.buf ∧
    (∀ i, ¬ ((DictionaryArray.split_at_unchecked d o).1.keys.in_window i ∧
      (DictionaryArray.split_at_unchecked d o).2.keys.in_window i)) ∧
    (∀ i, d.keys.in_window i ↔
      ((DictionaryArray.split_at_unchecked d o).1.keys.in_window i ∨
        (DictionaryArray.split_at_unchecked d o).2.keys.in_window i)) := by
  refine ⟨?_, rfl, rfl, rfl, rfl, rfl, rfl, rfl, rfl, ?_, ?_⟩
  · simp only [DictionaryArray.slice, PrimM.slice, if_neg (by omega : ¬ d.keys.len < o + l),
      Option.map_some]
    rfl
  · intro i
    simp only [DictionaryArray.split_at_unchecked, PrimM.split_at_unchecked,
      PrimM.in_window]
    omega
  · intro i
    simp only [DictionaryArray.split_at_unchecked, PrimM.split_at_unchecked,
      PrimM.in_window]
    omega

/-- C8 witness: splitting a length-10 dictionary array at offset 4 yields
lengths 4 and 6 and both halves carry the same values pool. -/
theorem dict_slice_split_frame_witness :
    DictionaryArray.len (DictionaryArray.split_at_unchecked
      ⟨.Dictionary .UInt8 (.Primitive .Int32) false,
        ⟨[0, 1, 2, 0, 1, 2, 0, 1, 2, 0], 0, 10, none⟩, ⟨.Primitive .Int32, 3⟩⟩ 4).1 = 4 ∧
    DictionaryArray.len (DictionaryArray.split_at_unchecked
      ⟨.Dictionary .UInt8 (.Primitive .Int32) false,
        ⟨[0, 1, 2, 0, 1, 2, 0, 1, 2, 0], 0, 10, none⟩, ⟨.Primitive .Int32, 3⟩⟩ 4).2 = 6 ∧
    (DictionaryArray.split_at_unchecked
      ⟨.Dictionary .UInt8 (.Primitive .Int32) false,
        ⟨[0, 1, 2, 0, 1, 2, 0, 1, 2, 0], 0, 10, none⟩, ⟨.Primitive .Int32, 3⟩⟩ 4).1.values =
      (⟨.Primitive .Int32, 3⟩ : ValuesArr) := by
  have h := dict_slice_split_frame
    ⟨.Dictionary .UInt8 (.Primitive .Int32) false,
      ⟨[0, 1, 2, 0, 1, 2, 0, 1, 2, 0], 0, 10, none⟩, ⟨.Primitive .Int32, 3⟩⟩ 4 6
    (by decide) (by decide)
  exact ⟨h.2.1, h.2.2.1, h.2.2.2.2.2.1⟩

/-! ## The ABI array struct and the import helpers (`ffi/array.rs`)

A foreign buffer is a list of typed elements together with a flag telling
whether its pointer is misaligned for the element type; a bitmap buffer's
elements are its bits (nonzero = set).  The buffers pointer array carries its
own alignment flag (the source checks the alignment of the pointer array
itself).  `none` at the pointer positions is a null pointer. -/

structure Buf where
  data : List Int
  misaligned : Bool
deriving DecidableEq

structure BuffersArr where
  arr_misaligned : Bool
  ptrs : List (Option Buf)
deriving DecidableEq

/-- The C ABI `ArrowArray` struct.  `children` and `dictionary` are raw
pointers to further structs; `has_release` is whether the release callback is
present. -/
inductive ArrowArrayM where
  | mk (length : Int) (null_count : Int) (offset : Int)
       (n_buffers : Int) (n_children : Int)
       (buffers : Option BuffersArr)
       (children : Option (List (Option ArrowArrayM)))
       (dictionary : Option ArrowArrayM)
       (has_release : Bool)

def ArrowArrayM.length : ArrowArrayM → Int
  | .mk l _ _ _ _ _ _ _ _ => l

def ArrowArrayM.null_count : ArrowArrayM → Int
  | .mk _ nc _ _ _ _ _ _ _ => nc

def ArrowArrayM.offset : ArrowArrayM → Int
  | .mk _ _ o _ _ _ _ _ _ => o

def ArrowArrayM.n_buffers : ArrowArrayM → Int
  | .mk _ _ _ nb _ _ _ _ _ => nb

def ArrowArrayM.n_children : ArrowArrayM → Int
  | .mk _ _ _ _ nc _ _ _ _ => nc

def ArrowArrayM.buffers : ArrowArrayM → Option BuffersArr
  | .mk _ _ _ _ _ b _ _ _ => b

def ArrowArrayM.children : ArrowArrayM → Option (List (Option ArrowArrayM))
  | .mk _ _ _ _ _ _ c _ _ => c

def ArrowArrayM.dictionary : ArrowArrayM → Option ArrowArrayM
  | .mk _ _ _ _ _ _ _ d _ => d

def ArrowArrayM.has_release : ArrowArrayM → Bool
  | .mk _ _ _ _ _ _ _ _ r => r

/-- The effect monad of the import helpers: the outer `Option` is stuck /
undefined behaviour (a raw out-of-bounds or null dereference, a panic), the
inner `Except` is a recoverable failure. -/
abbrev FfiM (α : Type) : Type := Option (Except FfiError α)

def mret {α : Type} (a : α) : FfiM α := some (.ok a)

def mbind {α β : Type} (x : FfiM α) (f : α → FfiM β) : FfiM β :=
  match x with
  | none => none
  | some (.error e) => some (.error e)
  | some (.ok a) => f a

/-- `get_buffer_ptr` (ffi/array.rs, lines 208-245): checks, in order, that the
buffers pointer array is non-null, that it is aligned, that `index` is below
the declared `n_buffers` (an `as usize` cast), and that the pointer at
`index` is non-null.  Reading a pointer slot past the end of the actual
allocation is undefined behaviour (`none`). -/
def get_buffer_ptr (a : ArrowArrayM) (dtype : ArrowDataType) (index : Nat) :
    FfiM Buf :=
  match a.buffers with
  | none => some (.error (.non_null_buffers dtype))
  | some bs =>
    if bs.arr_misaligned then some (.error (.buffers_not_aligned dtype index))
    else if index < usize_cast a.n_buffers then
      match bs.ptrs[index]? with
      | none => none
      | some none => some (.error (.non_null_buffer dtype index))
      | some (some b) => mret b
    else some (.error (.must_have_buffer dtype index))

/-- `buffer_offset` (ffi/array.rs, lines 332-346): zero for the data buffer of
the variable-length string/binary types, the struct offset scaled by the
element size for buffer 1 of fixed-size binary, and the struct offset
otherwise; the `try_into().expect(..)` panics (`none`) on a negative offset. -/
def buffer_offset (a : ArrowArrayM) (dtype : ArrowDataType) (i : Nat) : Option Nat :=
  match dtype.to_physical_type, i with
  | .LargeUtf8, 2 | .LargeBinary, 2 | .Utf8, 2 | .Binary, 2 => some 0
  | .FixedSizeBinary, 1 =>
    match dtype.to_logical_type with
    | .FixedSizeBinary size => (usize_try a.offset).map (fun o => o * size)
    | _ => none
  | _, _ => usize_try a.offset

/-- `buffer_len` (ffi/array.rs, lines 349-402): the per-physical-type length,
in slots, of buffer `i`.  For the data buffer of variable-length
string/binary it dereferences the offsets buffer (buffer 1) directly — with
no null or bounds checks — and reads its slot `len1 - 1`; casts are `as usize`
(wrapping). -/
def buffer_len (a : ArrowArrayM) (dtype : ArrowDataType) (i : Nat) : Option Nat :=
  match dtype.to_physical_type, i with
  | .FixedSizeBinary, 1 =>
    match dtype.to_logical_type with
    | .FixedSizeBinary size => some (size * (usize_cast a.offset + usize_cast a.length))
    | _ => none
  | .FixedSizeList, 1 =>
    match dtype.to_logical_type with
    | .FixedSizeList _ size => some (size * (usize_cast a.offset + usize_cast a.length))
    | _ => none
  | .Utf8, 1 | .LargeUtf8, 1 | .Binary, 1 | .LargeBinary, 1
  | .List, 1 | .LargeList, 1 | .Map, 1 =>
    some (usize_cast a.offset + usize_cast a.length + 1)
  | .BinaryView, 1 | .Utf8View, 1 =>
    some (usize_cast a.offset + usize_cast a.length)
  | .Utf8, 2 | .Binary, 2 =>
    -- the source computes `let len = buffer_len(array, dtype, 1)?`; for these
    -- dtypes that call returns `offset + length + 1`, inlined here so the
    -- definition is not recursive
    match a.buffers with
    | none => none
    | some bs =>
      match bs.ptrs[1]? with
      | none => none
      | some none => none
      | some (some b) =>
        match b.data[(usize_cast a.offset + usize_cast a.length + 1) - 1]? with
        | none => none
        | some v => some (usize_cast v)
  | .LargeUtf8, 2 | .LargeBinary, 2 =>
    -- same inlining of `buffer_len(array, dtype, 1)` as above
    match a.buffers with
    | none => none
    | some bs =>
      match bs.ptrs[1]? with
      | none => none
      | some none => none
      | some (some b) =>
        match b.data[(usize_cast a.offset + usize_cast a.length + 1) - 1]? with
        | none => none
        | some v => some (usize_cast v)
  | _, _ => some (usize_cast a.offset + usize_cast a.length)

/-- `create_buffer` (ffi/array.rs, lines 267-294): computes the length, returns
an empty buffer immediately when it is zero, otherwise resolves the offset and
the pointer and takes either the zero-copy path (`sliced(offset, len - offset)`
over a storage of `len` elements at the pointer) or, when the pointer is
misaligned for the element type, the copy fallback
(`from_raw_parts(ptr, len - offset)`, i.e. the first `len - offset` elements
at the pointer).  Reading past the foreign allocation is undefined behaviour. -/
def create_buffer (a : ArrowArrayM) (dtype : ArrowDataType) (index : Nat) :
    FfiM (List Int) :=
  match buffer_len a dtype index with
  | none => none
  | some len =>
    if len = 0 then mret []
    else
      match buffer_offset a dtype index with
      | none => none
      | some offset =>
        mbind (get_buffer_ptr a dtype index) (fun b =>
          if b.misaligned = false then
            if len ≤ b.data.length then
              mret ((b.data.drop offset).take (len - offset))
            else none
          else
            if len - offset ≤ b.data.length then
              mret (b.data.take (len - offset))
            else none)

/-- `create_buffer_known_len` (ffi/array.rs, lines 247-260): empty buffer when
`len == 0`, otherwise wraps the first `len` elements at the pointer (no
alignment check in the source). -/
def create_buffer_known_len (a : ArrowArrayM) (dtype : ArrowDataType)
    (len : Nat) (index : Nat) : FfiM (List Int) :=
  if len = 0 then mret []
  else
    mbind (get_buffer_ptr a dtype index) (fun b =>
      if len ≤ b.data.length then mret (b.data.take len) else none)

/-- The native `Bitmap`: a bit storage with a window and a trusted null
count (`Bitmap::from_inner_unchecked`). -/
structure BitmapM where
  bits : List Int
  offset : Nat
  len : Nat
  null_count : Option Nat
deriving DecidableEq

/-- The logical bits of a bitmap window (nonzero = set). -/
def BitmapM.window (m : BitmapM) : List Bool :=
  ((m.bits.drop m.offset).take m.len).map (fun v => v != 0)

/-- Number of bytes needed for `bits` bits (`bytes_for`). -/
def bytes_for (bits : Nat) : Nat := (bits + 7) / 8

/-- `create_bitmap` (ffi/array.rs, lines 301-330): the length comes from the
struct's `length` field via `try_into().expect(..)` (panic on negative); an
empty bitmap is returned when it is zero; otherwise the pointer is resolved,
`bytes_for(offset + len)` bytes are wrapped, and the bitmap keeps the window
`(offset, len)` with the struct's null count when this is the validity. -/
def create_bitmap (a : ArrowArrayM) (dtype : ArrowDataType) (index : Nat)
    (is_validity : Bool) : FfiM BitmapM :=
  match usize_try a.length with
  | none => none
  | some len =>
    if len = 0 then mret ⟨[], 0, 0, none⟩
    else
      mbind (get_buffer_ptr a dtype index) (fun b =>
        match usize_try a.offset with
        | none => none
        | some offset =>
          if 8 * bytes_for (offset + len) ≤ b.data.length then
            mret ⟨b.data.take (8 * bytes_for (offset + len)), offset, len,
              if is_validity then some (usize_cast a.null_count) else none⟩
          else none)

/-- `ArrowArrayRef::validity` (ffi/array.rs, lines 487-493): `none` when the
struct's null count is zero, otherwise the bitmap of buffer 0. -/
def array_validity (a : ArrowArrayM) (dtype : ArrowDataType) :
    FfiM (Option BitmapM) :=
  if usize_cast a.null_count = 0 then mret none
  else mbind (create_bitmap a dtype 0 true) (fun bm => mret (some bm))

/-- Modelled from the spec: `get_child` of `ffi/schema.rs` is not under
`src/`.  Per the spec it resolves the type descriptor of child `index` via
the parent descriptor's own child-type rule (the single child of list-like
types); the reduced dtype model has no `Struct` fields, so any other request
fails. -/
def get_child (dtype : ArrowDataType) (index : Nat) : Except FfiError ArrowDataType :=
  match index, dtype with
  | 0, .List inner => .ok inner
  | 0, .LargeList inner => .ok inner
  | 0, .FixedSizeList inner _ => .ok inner
  | 0, .Map inner => .ok inner
  | _, _ => .error (.no_such_child dtype index)

/-- `create_child` (ffi/array.rs, lines 411-445): resolves the child dtype
(shadowing `dtype`, so subsequent messages cite the child dtype), then checks
the children pointer array is non-null, that `index` is below the declared
`n_children`, and that the pointer at `index` is non-null.  Reading a slot
past the actual allocation is undefined behaviour. -/
def create_child (a : ArrowArrayM) (dtype : ArrowDataType) (index : Nat) :
    FfiM (ArrowDataType × ArrowArrayM) :=
  match get_child dtype index with
  | .error e => some (.error e)
  | .ok cdt =>
    match a.children with
    | none => some (.error (.children_null cdt))
    | some cs =>
      if index < usize_cast a.n_children then
        match cs[index]? with
        | none => none
        | some none => some (.error (.non_null_child cdt index))
        | some (some c) => mret (cdt, c)
      else some (.error (.must_have_child cdt index))

/-- `create_dictionary` (ffi/array.rs, lines 452-473): for a dictionary dtype
the struct's dictionary pointer must be non-null (the message cites the value
dtype); for any other dtype the result is `none` without touching the
struct. -/
def create_dictionary (a : ArrowArrayM) (dtype : ArrowDataType) :
    Except FfiError (Option (ArrowDataType × ArrowArrayM)) :=
  match dtype with
  | .Dictionary _ value _ =>
    match a.dictionary with
    | none => .error (.dictionary_null value)
    | some d => .ok (some (value, d))
  | _ => .ok none

/-! ## Claims C4, C5, C6 -/

/-- C4: evaluation at the failing input.  For a primitive buffer holding the
elements `[10, 20, 30]` with struct offset 1 and length 2 (so `len = 3`), the
copy fallback taken for a misaligned pointer yields `[10, 20]` — the first
`len - offset` elements at the pointer — while the zero-copy path over the
same underlying elements at an aligned address yields the logical window
`[20, 30]`.  The copy fallback is therefore not value-identical to the
zero-copy path whenever the struct offset is nonzero. -/
theorem create_buffer_copy_path_diverges :
    create_buffer (.mk 2 0 1 2 0
        (some ⟨false, [none, some ⟨[10, 20, 30], true⟩]⟩) (some []) none true)
      (.Primitive .Int32) 1 = some (.ok [10, 20]) ∧
    create_buffer (.mk 2 0 1 2 0
        (some ⟨false, [none, some ⟨[10, 20, 30], false⟩]⟩) (some []) none true)
      (.Primitive .Int32) 1 = some (.ok [20, 30]) ∧
    ([10, 20] : List Int) ≠ [20, 30] := by
  refine ⟨by decide, by decide, by decide⟩

theorem varbin_offsets_len (a : ArrowArrayM) (dt : ArrowDataType)
    (h : dt.to_physical_type ∈
      ([.Utf8, .LargeUtf8, .Binary, .LargeBinary] : List PhysicalType)) :
    buffer_len a dt 1 = some (usize_cast a.offset + usize_cast a.length + 1) := by
  cases dt <;> first | rfl | (exfalso; simp [ArrowDataType.to_physical_type] at h)

theorem varbin_data_len (a : ArrowArrayM) (dt : ArrowDataType) (bs : BuffersArr)
    (b : Buf) (v : Int)
    (h : dt.to_physical_type ∈
      ([.Utf8, .LargeUtf8, .Binary, .LargeBinary] : List PhysicalType))
    (hbs : a.buffers = some bs)
    (hptr : bs.ptrs[1]? = some (some b))
    (hlen : b.data.length = usize_cast a.offset + usize_cast a.length + 1)
    (hv : b.data.getLast? = some v) :
    buffer_len a dt 2 = some (usize_cast v) := by
  cases dt <;> first
    | (simp only [buffer_len, ArrowDataType.to_physical_type, hbs, hptr]
       rw [← hlen, ← List.getLast?_eq_getElem?, hv])
    | (exfalso; simp [ArrowDataType.to_physical_type] at h)

theorem views_len (a : ArrowArrayM) (dt : ArrowDataType)
    (h : dt.to_physical_type ∈ ([.BinaryView, .Utf8View] : List PhysicalType)) :
    buffer_len a dt 1 = some (usize_cast a.offset + usize_cast a.length) := by
  cases dt <;> first | rfl | (exfalso; simp [ArrowDataType.to_physical_type] at h)

/-- C5: for the variable-length string/binary physical types `buffer_len`
computes the offsets buffer (index 1) as `offset + length + 1` slots and the
data buffer (index 2) as the value stored at the last slot of an offsets
buffer of that declared length; for the view-encoded types the views buffer
(index 1) is `offset + length` with no extra slot. -/
theorem varlen_buffer_geometry :
    (∀ (a : ArrowArrayM) (dt : ArrowDataType),
      dt.to_physical_type ∈ ([.Utf8, .LargeUtf8, .Binary, .LargeBinary] : List PhysicalType) →
      buffer_len a dt 1 = some (usize_cast a.offset + usize_cast a.length + 1)) ∧
    (∀ (a : ArrowArrayM) (dt : ArrowDataType) (bs : BuffersArr) (b : Buf) (v : Int),
      dt.to_physical_type ∈ ([.Utf8, .LargeUtf8, .Binary, .LargeBinary] : List PhysicalType) →
      a.buffers = some bs →
      bs.ptrs[1]? = some (some b) →
      b.data.length = usize_cast a.offset + usize_cast a.length + 1 →
      b.data.getLast? = some v →
      buffer_len a dt 2 = some (usize_cast v)) ∧
    (∀ (a : ArrowArrayM) (dt : ArrowDataType),
      dt.to_physical_type ∈ ([.BinaryView, .Utf8View] : List PhysicalType) →
      buffer_len a dt 1 = some (usize_cast a.offset + usize_cast a.length)) :=
  ⟨varbin_offsets_len, varbin_data_len, views_len⟩

/-- C5 witness: for offsets `[0, 3, 3, 7]` with struct offset 0 and length 3,
the offsets buffer length is 4 and the data buffer length is 7; for a
view-encoded struct of length 3 the views buffer length is 3. -/
theorem varlen_buffer_geometry_witness :
    buffer_len (.mk 3 0 0 3 0 (some ⟨false, [none, some ⟨[0, 3, 3, 7], false⟩]⟩)
      (some []) none true) .Utf8 1 = some 4 ∧
    buffer_len (.mk 3 0 0 3 0 (some ⟨false, [none, some ⟨[0, 3, 3, 7], false⟩]⟩)
      (some []) none true) .Utf8 2 = some 7 ∧
    buffer_len (.mk 3 0 0 3 0 (some ⟨false, [none, some ⟨[0, 3, 3, 7], false⟩]⟩)
      (some []) none true) .Utf8View 1 = some 3 := by
  refine ⟨?_, ?_, ?_⟩
  · exact varlen_buffer_geometry.1
      (.mk 3 0 0 3 0 (some ⟨false, [none, some ⟨[0, 3, 3, 7], false⟩]⟩)
        (some []) none true) .Utf8 (by decide)
  · exact varlen_buffer_geometry.2.1
      (.mk 3 0 0 3 0 (some ⟨false, [none, some ⟨[0, 3, 3, 7], false⟩]⟩)
        (some []) none true) .Utf8
      ⟨false, [none, some ⟨[0, 3, 3, 7], false⟩]⟩ ⟨[0, 3, 3, 7], false⟩ 7
      (by decide) rfl (by decide) (by decide) (by decide)
  · exact varlen_buffer_geometry.2.2
      (.mk 3 0 0 3 0 (some ⟨false, [none, some ⟨[0, 3, 3, 7], false⟩]⟩)
        (some []) none true) .Utf8View (by decide)

theorem buffer_offset_data_zero (a : ArrowArrayM) (dt : ArrowDataType)
    (h0 : 0 ≤ a.offset)
    (h : dt.to_physical_type ∈
      ([.Utf8, .LargeUtf8, .Binary, .LargeBinary] : List PhysicalType)) :
    buffer_offset a dt 2 = some 0 := by
  cases dt <;> first | rfl | (exfalso; simp [ArrowDataType.to_physical_type] at h)

theorem buffer_offset_fsb (a : ArrowArrayM) (size : Nat) (h0 : 0 ≤ a.offset) :
    buffer_offset a (.FixedSizeBinary size) 1 = some (a.offset.toNat * size) := by
  simp [buffer_offset, ArrowDataType.to_physical_type, ArrowDataType.to_logical_type,
    usize_try, h0]

theorem buffer_offset_default (a : ArrowArrayM) (dt : ArrowDataType) (i : Nat)
    (h0 : 0 ≤ a.offset)
    (h1 : dt.to_physical_type ∈
      ([.Utf8, .LargeUtf8, .Binary, .LargeBinary] : List PhysicalType) → i ≠ 2)
    (h2 : dt.to_physical_type = .FixedSizeBinary → i ≠ 1) :
    buffer_offset a dt i = some a.offset.toNat := by
  have hs : usize_try a.offset = some a.offset.toNat := by simp [usize_try, h0]
  cases dt <;> rcases i with _ | _ | _ | j <;>
    first
      | (exact absurd rfl (h1 (by decide)))
      | (exact absurd rfl (h2 rfl))
      | (simp [buffer_offset, ArrowDataType.to_physical_type,
          ArrowDataType.to_logical_type, hs])

/-- C6: `buffer_offset` returns the struct's own offset field for every
(physical type, buffer index) combination except that it returns 0 for the
data buffer (index 2) of the variable-length string/binary types and the
offset scaled by the declared element size for buffer 1 of fixed-size
binary. -/
theorem buffer_offset_semantics :
    (∀ (a : ArrowArrayM) (dt : ArrowDataType), 0 ≤ a.offset →
      dt.to_physical_type ∈ ([.Utf8, .LargeUtf8, .Binary, .LargeBinary] : List PhysicalType) →
      buffer_offset a dt 2 = some 0) ∧
    (∀ (a : ArrowArrayM) (size : Nat), 0 ≤ a.offset →
      buffer_offset a (.FixedSizeBinary size) 1 = some (a.offset.toNat * size)) ∧
    (∀ (a : ArrowArrayM) (dt : ArrowDataType) (i : Nat), 0 ≤ a.offset →
      (dt.to_physical_type ∈ ([.Utf8, .LargeUtf8, .Binary, .LargeBinary] : List PhysicalType) →
        i ≠ 2) →
      (dt.to_physical_type = .FixedSizeBinary → i ≠ 1) →
      buffer_offset a dt i = some a.offset.toNat) :=
  ⟨buffer_offset_data_zero, buffer_offset_fsb, buffer_offset_default⟩

/-- C6 witness: data buffer of a string struct gets offset 0; fixed-size
binary of size 4 at struct offset 2 gets buffer-1 offset 8; a primitive
buffer at struct offset 2 gets offset 2. -/
theorem buffer_offset_semantics_witness :
    buffer_offset (.mk 3 0 2 3 0 none (some []) none true) .Utf8 2 = some 0 ∧
    buffer_offset (.mk 3 0 2 2 0 none (some []) none true)
      (.FixedSizeBinary 4) 1 = some 8 ∧
    buffer_offset (.mk 3 0 2 2 0 none (some []) none true)
      (.Primitive .Int32) 1 = some 2 := by
  refine ⟨?_, ?_, ?_⟩
  · exact buffer_offset_semantics.1 (.mk 3 0 2 3 0 none (some []) none true)
      .Utf8 (by decide) (by decide)
  · exact buffer_offset_semantics.2.1 (.mk 3 0 2 2 0 none (some []) none true)
      4 (by decide)
  · exact buffer_offset_semantics.2.2 (.mk 3 0 2 2 0 none (some []) none true)
      (.Primitive .Int32) 1 (by decide) (by decide) (by decide)

/-! ## Claims C9, C10 -/

/-- C9 counterexample: the claim says the out-of-range error message names
both the offending index and the declared limit.  But two structs whose
declared buffer limits differ (1 vs 3) produce *identical* error values for
the same out-of-range index 5, so the rendered message cannot name the
declared limit: the `polars_bail!` site interpolates only the dtype and the
index. -/
theorem checked_accessor_error_omits_limit_cex :
    get_buffer_ptr (.mk 0 0 0 1 0 (some ⟨false, [some ⟨[], false⟩]⟩)
        (some []) none true) (.Primitive .Int32) 5 =
      some (.error (.must_have_buffer (.Primitive .Int32) 5)) ∧
    get_buffer_ptr (.mk 0 0 0 3 0
        (some ⟨false, [some ⟨[], false⟩, some ⟨[], false⟩, some ⟨[], false⟩]⟩)
        (some []) none true) (.Primitive .Int32) 5 =
      some (.error (.must_have_buffer (.Primitive .Int32) 5)) ∧
    (1 : Int) ≠ 3 := by
  refine ⟨by decide, by decide, by decide⟩

/-- C9 (amended): every checked accessor call with an out-of-range index
returns a recoverable error — never undefined behaviour — that names the
offending index and the dtype (but not the declared limit), and the same
calls return recoverable errors when the pointer array or the pointer at the
index is null. -/
theorem checked_accessor_oob_errors :
    (∀ (a : ArrowArrayM) (dt : ArrowDataType) (index : Nat) (bs : BuffersArr),
      a.buffers = some bs → bs.arr_misaligned = false →
      usize_cast a.n_buffers ≤ index →
      get_buffer_ptr a dt index = some (.error (.must_have_buffer dt index))) ∧
    (∀ (a : ArrowArrayM) (dt : ArrowDataType) (index : Nat),
      a.buffers = none →
      get_buffer_ptr a dt index = some (.error (.non_null_buffers dt))) ∧
    (∀ (a : ArrowArrayM) (dt : ArrowDataType) (index : Nat) (bs : BuffersArr),
      a.buffers = some bs → bs.arr_misaligned = false →
      index < usize_cast a.n_buffers → bs.ptrs[index]? = some none →
      get_buffer_ptr a dt index = some (.error (.non_null_buffer dt index))) ∧
    (∀ (a : ArrowArrayM) (dt cdt : ArrowDataType) (index : Nat)
        (cs : List (Option ArrowArrayM)),
      get_child dt index = .ok cdt → a.children = some cs →
      usize_cast a.n_children ≤ index →
      create_child a dt index = some (.error (.must_have_child cdt index))) ∧
    (∀ (a : ArrowArrayM) (dt cdt : ArrowDataType) (index : Nat),
      get_child dt index = .ok cdt → a.children = none →
      create_child a dt index = some (.error (.children_null cdt))) ∧
    (∀ (a : ArrowArrayM) (dt cdt : ArrowDataType) (index : Nat)
        (cs : List (Option ArrowArrayM)),
      get_child dt index = .ok cdt → a.children = some cs →
      index < usize_cast a.n_children → cs[index]? = some none →
      create_child a dt index = some (.error (.non_null_child cdt index))) := by
  refine ⟨?_, ?_, ?_, ?_, ?_, ?_⟩
  · intro a dt index bs hb hal hge
    simp only [get_buffer_ptr, hb, hal, Bool.false_eq_true, if_false,
      if_neg (by omega : ¬ index < usize_cast a.n_buffers)]
  · intro a dt index hb
    simp only [get_buffer_ptr, hb]
  · intro a dt index bs hb hal hlt hp
    simp only [get_buffer_ptr, hb, hal, Bool.false_eq_true, if_false,
      if_pos hlt, hp]
  · intro a dt cdt index cs hg hc hge
    simp only [create_child, hg, hc,
      if_neg (by omega : ¬ index < usize_cast a.n_children)]
  · intro a dt cdt index hg hc
    simp only [create_child, hg, hc]
  · intro a dt cdt index cs hg hc hlt hp
    simp only [create_child, hg, hc, if_pos hlt, hp]

/-- C9 witness: concrete out-of-range and null-pointer accessor calls produce
the expected recoverable errors. -/
theorem checked_accessor_oob_errors_witness :
    get_buffer_ptr (.mk 0 0 0 1 0 (some ⟨false, [some ⟨[], false⟩]⟩)
        (some []) none true) (.Primitive .Int32) 5 =
      some (.error (.must_have_buffer (.Primitive .Int32) 5)) ∧
    get_buffer_ptr (.mk 0 0 0 1 0 none (some []) none true)
      (.Primitive .Int32) 0 = some (.error (.non_null_buffers (.Primitive .Int32))) ∧
    get_buffer_ptr (.mk 0 0 0 2 0 (some ⟨false, [none, some ⟨[], false⟩]⟩)
        (some []) none true) (.Primitive .Int32) 0 =
      some (.error (.non_null_buffer (.Primitive .Int32) 0)) ∧
    create_child (.mk 0 0 0 0 0 none (some []) none true)
      (.List (.Primitive .Int32)) 0 =
      some (.error (.must_have_child (.Primitive .Int32) 0)) ∧
    create_child (.mk 0 0 0 0 1 none none none true)
      (.List (.Primitive .Int32)) 0 =
      some (.error (.children_null (.Primitive .Int32))) ∧
    create_child (.mk 0 0 0 0 1 none (some [none]) none true)
      (.List (.Primitive .Int32)) 0 =
      some (.error (.non_null_child (.Primitive .Int32) 0)) := by
  refine ⟨?_, ?_, ?_, ?_, ?_, ?_⟩
  · exact checked_accessor_oob_errors.1 (.mk 0 0 0 1 0
      (some ⟨false, [some ⟨[], false⟩]⟩) (some []) none true) (.Primitive .Int32) 5
      ⟨false, [some ⟨[], false⟩]⟩ rfl rfl (by decide)
  · exact checked_accessor_oob_errors.2.1 (.mk 0 0 0 1 0 none (some []) none true)
      (.Primitive .Int32) 0 rfl
  · exact checked_accessor_oob_errors.2.2.1 (.mk 0 0 0 2 0
      (some ⟨false, [none, some ⟨[], false⟩]⟩) (some []) none true)
      (.Primitive .Int32) 0 ⟨false, [none, some ⟨[], false⟩]⟩ rfl rfl (by decide) rfl
  · exact checked_accessor_oob_errors.2.2.2.1 (.mk 0 0 0 0 0 none (some []) none true)
      (.List (.Primitive .Int32)) (.Primitive .Int32) 0 [] rfl rfl (by decide)
  · exact checked_accessor_oob_errors.2.2.2.2.1 (.mk 0 0 0 0 1 none none none true)
      (.List (.Primitive .Int32)) (.Primitive .Int32) 0 rfl rfl
  · exact checked_accessor_oob_errors.2.2.2.2.2 (.mk 0 0 0 0 1 none (some [none]) none true)
      (.List (.Primitive .Int32)) (.Primitive .Int32) 0 [none] rfl rfl (by decide) rfl

/-- C10: when the computed or supplied element length is zero, the import
buffer and bitmap constructors return an empty buffer/bitmap immediately and
succeed with no validation of the struct's buffers array: the result is
`ok empty` for every struct, including structs whose buffers pointer array is
null, shorter than declared, or full of null pointers. -/
theorem zero_len_import_skips_validation :
    (∀ (a : ArrowArrayM) (dt : ArrowDataType) (index : Nat),
      create_buffer_known_len a dt 0 index = mret []) ∧
    (∀ (a : ArrowArrayM) (dt : ArrowDataType) (index : Nat),
      buffer_len a dt index = some 0 →
      create_buffer a dt index = mret []) ∧
    (∀ (a : ArrowArrayM) (dt : ArrowDataType) (index : Nat) (is_validity : Bool),
      a.length = 0 →
      create_bitmap a dt index is_validity = mret ⟨[], 0, 0, none⟩) := by
  refine ⟨?_, ?_, ?_⟩
  · intro a dt index
    rfl
  · intro a dt index h
    simp only [create_buffer, h, if_true]
  · intro a dt index is_validity h
    simp only [create_bitmap, h]
    rfl

/-- C10 witness: a struct with a null buffers pointer array still imports an
empty buffer/bitmap successfully at zero length. -/
theorem zero_len_import_skips_validation_witness :
    create_buffer_known_len (.mk 0 0 0 0 0 none (some []) none true)
      (.Primitive .Int32) 0 7 = mret [] ∧
    create_buffer (.mk 0 0 0 0 0 none (some []) none true)
      (.Primitive .Int32) 1 = mret [] ∧
    create_bitmap (.mk 0 5 0 0 0 none (some []) none true)
      (.Primitive .Int32) 0 true = mret ⟨[], 0, 0, none⟩ := by
  refine ⟨?_, ?_, ?_⟩
  · exact zero_len_import_skips_validation.1 (.mk 0 0 0 0 0 none (some []) none true)
      (.Primitive .Int32) 7
  · exact zero_len_import_skips_validation.2.1 (.mk 0 0 0 0 0 none (some []) none true)
      (.Primitive .Int32) 1 (by decide)
  · exact zero_len_import_skips_validation.2.2 (.mk 0 5 0 0 0 none (some []) none true)
      (.Primitive .Int32) 0 true rfl

/-! ## Claim C7: the release protocol

A tree of exported ABI structs.  Each node records whether its release
callback pointer is present, how many times its private allocation has been
reclaimed (the counting test double of the spec), its child structs, and its
dictionary struct. -/

mutual
inductive ANode where
  | mk (has_release : Bool) (free_count : Nat) (children : AForest) (dict : AOptNode)

inductive AForest where
  | nil
  | cons (hd : ANode) (tl : AForest)

inductive AOptNode where
  | null
  | ptr (n : ANode)
end

mutual
/-- `Drop for ArrowArray` (ffi/array.rs, lines 57-64): invoke the release
callback iff it is present; the callback (`c_release_array`, lines 67-84)
reclaims the private allocation (counted here), releases every child and the
dictionary through their own drop glue (`Box::from_raw` + drop), and clears
the release pointer. -/
def drop_array : ANode → ANode
  | .mk hr fc cs d =>
    if hr then .mk false (fc + 1) (release_forest cs) (release_opt d)
    else .mk hr fc cs d

def release_forest : AForest → AForest
  | .nil => .nil
  | .cons h t => .cons (drop_array h) (release_forest t)

def release_opt : AOptNode → AOptNode
  | .null => .null
  | .ptr n => .ptr (drop_array n)
end

/-- `c_release_array` applied to a possibly-null struct pointer (ffi/array.rs,
lines 67-70): a null pointer is a no-op; otherwise the private allocation is
reclaimed, children and dictionary are released recursively, and the release
pointer is cleared. -/
def c_release_array : Option ANode → Option ANode
  | none => none
  | some (.mk _ fc cs d) =>
    some (.mk false (fc + 1) (release_forest cs) (release_opt d))

mutual
/-- Every node of the tree has its release callback present (the shape
`ArrowArray::new` exports). -/
def all_release : ANode → Bool
  | .mk hr _ cs d => hr && all_release_forest cs && all_release_opt d

def all_release_forest : AForest → Bool
  | .nil => true
  | .cons h t => all_release h && all_release_forest t

def all_release_opt : AOptNode → Bool
  | .null => true
  | .ptr n => all_release n
end

mutual
/-- Every node of the tree has been reclaimed exactly `c` times. -/
def all_count (c : Nat) : ANode → Bool
  | .mk _ fc cs d => (fc == c) && all_count_forest c cs && all_count_opt c d

def all_count_forest (c : Nat) : AForest → Bool
  | .nil => true
  | .cons h t => all_count c h && all_count_forest c t

def all_count_opt (c : Nat) : AOptNode → Bool
  | .null => true
  | .ptr n => all_count c n
end

mutual
/-- Every node of the tree has its release pointer cleared. -/
def none_release : ANode → Bool
  | .mk hr _ cs d => !hr && none_release_forest cs && none_release_opt d

def none_release_forest : AForest → Bool
  | .nil => true
  | .cons h t => none_release h && none_release_forest t

def none_release_opt : AOptNode → Bool
  | .null => true
  | .ptr n => none_release n
end

mutual
theorem drop_once_node (n : ANode) (h1 : all_release n = true)
    (h2 : all_count 0 n = true) :
    all_count 1 (drop_array n) = true ∧ none_release (drop_array n) = true := by
  cases n with
  | mk hr fc cs d =>
    simp only [all_release, Bool.and_eq_true] at h1
    simp only [all_count, Bool.and_eq_true, beq_iff_eq] at h2
    obtain ⟨⟨hhr, hcs⟩, hd⟩ := h1
    obtain ⟨⟨hfc, hccs⟩, hcd⟩ := h2
    have ihf := drop_once_forest cs hcs hccs
    have iho := drop_once_opt d hd hcd
    subst hhr hfc
    simp only [drop_array, if_true]
    constructor
    · simp only [all_count, Bool.and_eq_true, beq_iff_eq]
      exact ⟨⟨by trivial, ihf.1⟩, iho.1⟩
    · simp only [none_release, Bool.and_eq_true, Bool.not_false]
      exact ⟨⟨by trivial, ihf.2⟩, iho.2⟩

theorem drop_once_forest (f : AForest) (h1 : all_release_forest f = true)
    (h2 : all_count_forest 0 f = true) :
    all_count_forest 1 (release_forest f) = true ∧
      none_release_forest (release_forest f) = true := by
  cases f with
  | nil => exact ⟨rfl, rfl⟩
  | cons h t =>
    simp only [all_release_forest, Bool.and_eq_true] at h1
    simp only [all_count_forest, Bool.and_eq_true] at h2
    have ihn := drop_once_node h h1.1 h2.1
    have iht := drop_once_forest t h1.2 h2.2
    simp only [release_forest, all_count_forest, none_release_forest, Bool.and_eq_true]
    exact ⟨⟨ihn.1, iht.1⟩, ihn.2, iht.2⟩

theorem drop_once_opt (o : AOptNode) (h1 : all_release_opt o = true)
    (h2 : all_count_opt 0 o = true) :
    all_count_opt 1 (release_opt o) = true ∧
      none_release_opt (release_opt o) = true := by
  cases o with
  | null => exact ⟨rfl, rfl⟩
  | ptr n =>
    have ihn := drop_once_node n h1 h2
    simp only [release_opt, all_count_opt, none_release_opt]
    exact ihn
end

/-- C7: for an exported tree (release callback present at every node, nothing
reclaimed yet), one teardown reclaims every node exactly once and clears every
release pointer; a second teardown of the result changes nothing (dropping is
idempotent, since the destructor only fires when the callback is present); a
null struct pointer passed to the release callback is a no-op; and a wrapper
whose callback is absent is not released at all. -/
theorem release_at_most_once :
    (∀ n : ANode, all_release n = true → all_count 0 n = true →
      all_count 1 (drop_array n) = true ∧ none_release (drop_array n) = true) ∧
    (∀ n : ANode, drop_array (drop_array n) = drop_array n) ∧
    c_release_array none = none ∧
    (∀ (fc : Nat) (cs : AForest) (d : AOptNode),
      drop_array (.mk false fc cs d) = .mk false fc cs d) := by
  refine ⟨drop_once_node, ?_, rfl, ?_⟩
  · intro n
    cases n with
    | mk hr fc cs d =>
      cases hr
      · simp [drop_array]
      · simp [drop_array]
  · intro fc cs d
    simp [drop_array]

/-- C7 witness: a two-level exported tree (one child, one dictionary) is
reclaimed exactly once per node by the first teardown, all release pointers
cleared. -/
theorem release_at_most_once_witness :
    all_count 1 (drop_array (.mk true 0 (.cons (.mk true 0 .nil .null) .nil)
      (.ptr (.mk true 0 .nil .null)))) = true ∧
    none_release (drop_array (.mk true 0 (.cons (.mk true 0 .nil .null) .nil)
      (.ptr (.mk true 0 .nil .null)))) = true ∧
    drop_array (drop_array (.mk true 0 (.cons (.mk true 0 .nil .null) .nil)
      (.ptr (.mk true 0 .nil .null)))) =
      drop_array (.mk true 0 (.cons (.mk true 0 .nil .null) .nil)
        (.ptr (.mk true 0 .nil .null))) := by
  have h := release_at_most_once.1
    (.mk true 0 (.cons (.mk true 0 .nil .null) .nil) (.ptr (.mk true 0 .nil .null)))
    rfl rfl
  exact ⟨h.1, h.2, release_at_most_once.2.1
    (.mk true 0 (.cons (.mk true 0 .nil .null) .nil) (.ptr (.mk true 0 .nil .null)))⟩


/-! ## Claim C1: round-trip through the interchange boundary

The native arrays of the §4.5 physical types carry their backing buffers
together with a logical slice window `[off, off+len)` (sliced arrays included;
`align_to_c_data_interface` makes the window uniform across the validity and
value buffers before export, and a fixed-size list or dictionary array has no
window of its own — slicing those narrows the child / key window instead, as
in the native `slice` implementations).  Export (`ArrowArray::new`;
`offset_buffers_children_dictionary` is not under `src/`, so the per-type
buffer layout is modelled from the spec) writes the window start into the
struct's `offset` field and the window length into `length`, with buffer
pointers addressing the backing storage: buffer 0 is the validity bitmap or
null, followed by the per-type offsets/values/views buffers of §4.5, children
and the dictionary recursively exported, the release callback present.
Import (the per-type `try_from_ffi` implementations are not under `src/`; the
reads below follow the spec's §4.4/§4.5 rules and go through the `create_*`
helpers of `ffi/array.rs` modelled above) cuts each buffer to the declared
window, so the reconstructed array is the logical window rebased to offset
zero. -/

inductive NativeArray where
  | primitive (pt : PrimitiveType) (off len : Nat) (values : List Int)
      (validity : Option (List Bool))
  | binary (large utf8 : Bool) (off len : Nat) (offsets : List Int)
      (data : List Int) (validity : Option (List Bool))
  | fixedSizeBinary (size : Nat) (off len : Nat) (data : List Int)
      (validity : Option (List Bool))
  | list (large : Bool) (off len : Nat) (offsets : List Int) (child : NativeArray)
      (validity : Option (List Bool))
  | fixedSizeList (size len : Nat) (child : NativeArray) (validity : Option (List Bool))
  | map (off len : Nat) (offsets : List Int) (child : NativeArray)
      (validity : Option (List Bool))
  | binview (utf8 : Bool) (off len : Nat) (views : List Int)
      (data_bufs : List (List Int)) (validity : Option (List Bool))
  | dict (key : IntegerType) (is_ordered : Bool) (off len : Nat) (keys : List Int)
      (keys_validity : Option (List Bool)) (values : NativeArray)
deriving DecidableEq

/-- The logical length of a native array (its window length). -/
def NativeArray.len : NativeArray → Nat
  | .primitive _ _ len _ _ => len
  | .binary _ _ _ len _ _ _ => len
  | .fixedSizeBinary _ _ len _ _ => len
  | .list _ _ len _ _ _ => len
  | .fixedSizeList _ len _ _ => len
  | .map _ len _ _ _ => len
  | .binview _ _ len _ _ _ => len
  | .dict _ _ _ len _ _ _ => len

/-- The dtype of a native array. -/
def NativeArray.dtypeOf : NativeArray → ArrowDataType
  | .primitive pt _ _ _ _ => .Primitive pt
  | .binary false false _ _ _ _ _ => .Binary
  | .binary false true _ _ _ _ _ => .Utf8
  | .binary true false _ _ _ _ _ => .LargeBinary
  | .binary true true _ _ _ _ _ => .LargeUtf8
  | .fixedSizeBinary size _ _ _ _ => .FixedSizeBinary size
  | .list false _ _ _ c _ => .List (NativeArray.dtypeOf c)
  | .list true _ _ _ c _ => .LargeList (NativeArray.dtypeOf c)
  | .fixedSizeList size _ c _ => .FixedSizeList (NativeArray.dtypeOf c) size
  | .map _ _ _ c _ => .Map (NativeArray.dtypeOf c)
  | .binview false _ _ _ _ _ => .BinaryView
  | .binview true _ _ _ _ _ => .Utf8View
  | .dict k ord _ _ _ _ values => .Dictionary k (NativeArray.dtypeOf values) ord

/-- Number of nulls an optional validity bitmap records inside the window
`[off, off+len)`. -/
def window_nc (v : Option (List Bool)) (off len : Nat) : Nat :=
  match v with
  | none => 0
  | some bs => ((bs.drop off).take len).count false

/-- The top-level null count of a native array (nulls in its window). -/
def NativeArray.null_count_top : NativeArray → Nat
  | .primitive _ off len _ v => window_nc v off len
  | .binary _ _ off len _ _ v => window_nc v off len
  | .fixedSizeBinary _ off len _ v => window_nc v off len
  | .list _ off len _ _ v => window_nc v off len
  | .fixedSizeList _ len _ v => window_nc v 0 len
  | .map off len _ _ v => window_nc v off len
  | .binview _ off len _ _ v => window_nc v off len
  | .dict _ _ off len _ kv _ => window_nc kv off len

/-- A validity bitmap, when present, covers at least the first `n` slots. -/
def validity_covers (v : Option (List Bool)) (n : Nat) : Bool :=
  match v with
  | none => true
  | some bs => decide (n ≤ bs.length)

/-- Geometric well-formedness of a native array: the backing buffers cover
the window (offsets buffers with the extra slot, fixed-size data scaled by
the cell size), variable-length offsets are nonnegative, nondecreasing and
bounded by the data length at the window's last slot, fixed-size list
lengths divide out, window ends are representable as nonnegative signed
64-bit values, and children are recursively well-formed. -/
def NativeArray.wf : NativeArray → Bool
  | .primitive _ off len vs v =>
    decide (off + len ≤ vs.length) && validity_covers v (off + len) &&
      decide (off + len < two63)
  | .binary _ _ off len offs data v =>
    decide (off + len + 1 ≤ offs.length) && validity_covers v (off + len) &&
      decide (off + len + 1 < two63) &&
      offs.all (fun o => decide (0 ≤ o) && decide (o < (9223372036854775808 : Int))) &&
      decide (List.Pairwise (fun x y => x ≤ y) offs) &&
      decide (offs.getD (off + len) 0 ≤ (data.length : Int))
  | .fixedSizeBinary size off len data v =>
    decide (size * (off + len) ≤ data.length) && validity_covers v (off + len) &&
      decide (off + len < two63) && (decide (0 < size) || decide (len = 0))
  | .list _ off len offs c v =>
    decide (off + len + 1 ≤ offs.length) && validity_covers v (off + len) &&
      decide (off + len + 1 < two63) && NativeArray.wf c
  | .fixedSizeList size len c v =>
    validity_covers v len && decide (len < two63) &&
      decide (NativeArray.len c / size = len) && NativeArray.wf c
  | .map off len offs c v =>
    decide (off + len + 1 ≤ offs.length) && validity_covers v (off + len) &&
      decide (off + len + 1 < two63) && NativeArray.wf c
  | .binview _ off len views bufs v =>
    decide (off + len ≤ views.length) && validity_covers v (off + len) &&
      decide (off + len < two63) && decide (3 + bufs.length < two63) &&
      bufs.all (fun d => decide (d.length < two63))
  | .dict _ _ off len keys kv values =>
    decide (off + len ≤ keys.length) && validity_covers kv (off + len) &&
      decide (off + len < two63) && NativeArray.wf values

/-- The validity the importer reconstructs for a struct whose declared window
is `[off, off+len)`: absent when the window holds no nulls (the struct's
`null_count` is the window's null count and `validity()` short-circuits on
zero), otherwise the window of the bitmap. -/
def import_validity_of (v : Option (List Bool)) (off len : Nat) :
    Option (List Bool) :=
  match v with
  | none => none
  | some bs =>
    if ((bs.drop off).take len).count false = 0 then none
    else some ((bs.drop off).take len)

/-- The native array a round trip reconstructs: the logical window rebased to
offset 0.  Each buffer is cut to the window per §4.5 — values/views/keys to
`[off, off+len)`, the offsets buffer to its `len + 1` window slots, the
variable-length data buffer kept zero-based and cut at the window's last
offset, fixed-size binary data cut at the cell-scaled window — list/map
offsets keep their absolute values into the recursively rebased child, a
fixed-size list or dictionary pool child is rebased whole, and a window
without nulls loses its validity bitmap. -/
def NativeArray.rebase : NativeArray → NativeArray
  | .primitive pt off len vs v =>
    .primitive pt 0 len ((vs.drop off).take len) (import_validity_of v off len)
  | .binary l u off len offs data v =>
    .binary l u 0 len ((offs.drop off).take (len + 1))
      (data.take (offs.getD (off + len) 0).toNat) (import_validity_of v off len)
  | .fixedSizeBinary size off len data v =>
    .fixedSizeBinary size 0 len
      ((data.drop (off * size)).take (size * (off + len) - off * size))
      (import_validity_of v off len)
  | .list l off len offs c v =>
    .list l 0 len ((offs.drop off).take (len + 1)) (NativeArray.rebase c)
      (import_validity_of v off len)
  | .fixedSizeList size len c v =>
    .fixedSizeList size len (NativeArray.rebase c) (import_validity_of v 0 len)
  | .map off len offs c v =>
    .map 0 len ((offs.drop off).take (len + 1)) (NativeArray.rebase c)
      (import_validity_of v off len)
  | .binview u off len views bufs v =>
    .binview u 0 len ((views.drop off).take len) bufs (import_validity_of v off len)
  | .dict k o off len keys kv values =>
    .dict k o 0 len ((keys.drop off).take len) (import_validity_of kv off len)
      (NativeArray.rebase values)

/-! ### Per-element semantics -/

/-- A logical element value: a scalar, a byte string, or a nested list. -/
inductive ElemVal where
  | int (v : Int)
  | bytes (bs : List Int)
  | listE (xs : List (Option ElemVal))

/-- Whether element `i` is null under an optional validity bitmap. -/
def null_at (v : Option (List Bool)) (i : Nat) : Bool :=
  match v with
  | none => false
  | some bs => !(bs.getD i true)

/-- The elements `[a, b)` of a list. -/
def slice_nat {α : Type} (l : List α) (a b : Nat) : List α :=
  (l.drop a).take (b - a)

def pow2_32 : Nat := 4294967296

def pow2_128 : Int := 340282366920938463463374607431768211456

/-- Decoding of a 128-bit view word: low 32 bits are the byte length; lengths
up to 12 store the bytes inline, longer values carry a data-buffer index and
a byte offset into it. -/
def decode_view (v : Int) (bufs : List (List Int)) : List Int :=
  if (v % pow2_128).toNat % pow2_32 ≤ 12 then
    (List.range ((v % pow2_128).toNat % pow2_32)).map
      (fun j => ((((v % pow2_128).toNat / 2 ^ (32 + 8 * j)) % 256 : Nat) : Int))
  else
    slice_nat (bufs.getD (((v % pow2_128).toNat / 2 ^ 64) % pow2_32) [])
      (((v % pow2_128).toNat / 2 ^ 96) % pow2_32)
      ((((v % pow2_128).toNat / 2 ^ 96) % pow2_32) +
        (v % pow2_128).toNat % pow2_32)

/-- The per-element values of a native array's window, `none` at null
positions, recursing into nested children and through the dictionary values
pool.  Window position `i` reads backing slot `off + i`; list/map offsets and
fixed-size list cells index the child's *logical* elements, and view words
reference the variadic data buffers absolutely. -/
def NativeArray.elems : NativeArray → List (Option ElemVal)
  | .primitive _ off len vs v =>
    (List.range len).map (fun i =>
      if null_at v (off + i) then none else some (.int (vs.getD (off + i) 0)))
  | .binary _ _ off len offs data v =>
    (List.range len).map (fun i =>
      if null_at v (off + i) then none
      else some (.bytes (slice_nat data (offs.getD (off + i) 0).toNat
        (offs.getD (off + i + 1) 0).toNat)))
  | .fixedSizeBinary size off len data v =>
    (List.range len).map (fun i =>
      if null_at v (off + i) then none
      else some (.bytes (slice_nat data (size * (off + i)) (size * (off + i) + size))))
  | .list _ off len offs c v =>
    (List.range len).map (fun i =>
      if null_at v (off + i) then none
      else some (.listE (slice_nat (NativeArray.elems c)
        (offs.getD (off + i) 0).toNat (offs.getD (off + i + 1) 0).toNat)))
  | .fixedSizeList size len c v =>
    (List.range len).map (fun i =>
      if null_at v i then none
      else some (.listE (slice_nat (NativeArray.elems c) (size * i) (size * i + size))))
  | .map off len offs c v =>
    (List.range len).map (fun i =>
      if null_at v (off + i) then none
      else some (.listE (slice_nat (NativeArray.elems c)
        (offs.getD (off + i) 0).toNat (offs.getD (off + i + 1) 0).toNat)))
  | .binview _ off len views bufs v =>
    (List.range len).map (fun i =>
      if null_at v (off + i) then none
      else some (.bytes (decode_view (views.getD (off + i) 0) bufs)))
  | .dict _ _ off len keys kv values =>
    (List.range len).map (fun i =>
      if null_at kv (off + i) then none
      else (NativeArray.elems values).getD (keys.getD (off + i) 0).toNat none)

/-! ### Export (`ArrowArray::new`, spec §4.3/§4.5) -/

/-- The validity bitmap as exported bits (1 = valid), padded to whole bytes. -/
def bits_of (v : List Bool) : List Int :=
  v.map (fun b => if b then 1 else 0)

def pad_bits (l : List Int) : List Int :=
  l ++ List.replicate (8 * bytes_for l.length - l.length) 0

/-- Buffer 0 of every exported struct: the validity bitmap over the backing
storage, or a null pointer when the array has none. -/
def validity_buf (v : Option (List Bool)) : Option Buf :=
  v.map (fun bs => ⟨pad_bits (bits_of bs), false⟩)

/-- Modelled from the spec: `ArrowArray::new` together with
`offset_buffers_children_dictionary` (the latter is not under `src/`).
Exports a native array's window: the struct's `offset` is the window start
(zero for fixed-size list, which holds no window of its own — its slicing
lives in the child — and the dictionary struct carries the key window),
`length` is the window length, `null_count` the window's null count, buffer 0
the validity over the backing storage, then the per-type backing buffers of
§4.5, children and the dictionary recursively exported, the release callback
present.  For the view types the per-chunk byte-length table is appended as
one extra buffer (ffi/array.rs, lines 106-122). -/
def export_array : NativeArray → ArrowArrayM
  | .primitive _ off len vs v =>
    .mk (len : Int) (window_nc v off len : Int) (off : Int) 2 0
      (some ⟨false, [validity_buf v, some ⟨vs, false⟩]⟩) (some []) none true
  | .binary _ _ off len offs data v =>
    .mk (len : Int) (window_nc v off len : Int) (off : Int) 3 0
      (some ⟨false, [validity_buf v, some ⟨offs, false⟩, some ⟨data, false⟩]⟩)
      (some []) none true
  | .fixedSizeBinary _ off len data v =>
    .mk (len : Int) (window_nc v off len : Int) (off : Int) 2 0
      (some ⟨false, [validity_buf v, some ⟨data, false⟩]⟩) (some []) none true
  | .list _ off len offs c v =>
    .mk (len : Int) (window_nc v off len : Int) (off : Int) 2 1
      (some ⟨false, [validity_buf v, some ⟨offs, false⟩]⟩)
      (some [some (export_array c)]) none true
  | .fixedSizeList _ len c v =>
    .mk (len : Int) (window_nc v 0 len : Int) 0 1 1
      (some ⟨false, [validity_buf v]⟩) (some [some (export_array c)]) none true
  | .map off len offs c v =>
    .mk (len : Int) (window_nc v off len : Int) (off : Int) 2 1
      (some ⟨false, [validity_buf v, some ⟨offs, false⟩]⟩)
      (some [some (export_array c)]) none true
  | .binview _ off len views bufs v =>
    .mk (len : Int) (window_nc v off len : Int) (off : Int)
      ((3 + bufs.length : Nat) : Int) 0
      (some ⟨false, [validity_buf v, some ⟨views, false⟩] ++
        bufs.map (fun d => some ⟨d, false⟩) ++
        [some ⟨bufs.map (fun d => (d.length : Int)), false⟩]⟩)
      (some []) none true
  | .dict _ _ off len keys kv values =>
    .mk (len : Int) (window_nc kv off len : Int) (off : Int) 2 0
      (some ⟨false, [validity_buf kv, some ⟨keys, false⟩]⟩) (some [])
      (some (export_array values)) true

/-! ### Import (spec §4.4/§4.5 over the `create_*` helpers) -/

/-- The native validity reconstructed from an imported bitmap. -/
def bitmap_to_validity (ob : Option BitmapM) : Option (List Bool) :=
  ob.map BitmapM.window

/-- Modelled from the spec: the variable-length binary/string
`try_from_ffi` (not under `src/`): validity, offsets buffer (1), data
buffer (2); the reconstructed array is zero-based with length read off
the imported offsets buffer. -/
def read_varbin (a : ArrowArrayM) (dt : ArrowDataType) (large utf8 : Bool) :
    FfiM NativeArray :=
  mbind (array_validity a dt) (fun v =>
  mbind (create_buffer a dt 1) (fun offs =>
  mbind (create_buffer a dt 2) (fun data =>
  mret (.binary large utf8 0 (offs.length - 1) offs data (bitmap_to_validity v)))))

/-- Modelled from the spec: the variadic data buffers of a view array, read
with the byte lengths listed in the per-chunk length table, starting at
buffer index 2. -/
def read_variadic (a : ArrowArrayM) (dt : ArrowDataType) :
    List Int → Nat → FfiM (List (List Int))
  | [], _ => mret []
  | s :: rest, i =>
    mbind (create_buffer_known_len a dt (usize_cast s) i) (fun b =>
    mbind (read_variadic a dt rest (i + 1)) (fun bs =>
    mret (b :: bs)))

/-- Modelled from the spec: the view-encoded `try_from_ffi` (not under
`src/`): validity, views buffer (1), then the per-chunk byte-length table in
the last buffer and one data buffer per entry. -/
def read_binview (a : ArrowArrayM) (dt : ArrowDataType) (utf8 : Bool) :
    FfiM NativeArray :=
  mbind (array_validity a dt) (fun v =>
  mbind (create_buffer a dt 1) (fun views =>
  mbind (create_buffer_known_len a dt (usize_cast a.n_buffers - 3)
      (usize_cast a.n_buffers - 1)) (fun sizes =>
  mbind (read_variadic a dt sizes 2) (fun bufs =>
  mret (.binview utf8 0 views.length views bufs (bitmap_to_validity v))))))

/-- Modelled from the spec: the depth-first import of an ABI struct tree at a
declared dtype (`try_from` of ffi/array.rs dispatches per physical type —
including `Map`, line 44 — to per-type `try_from_ffi` implementations that
are not under `src/`).  Children and the dictionary are resolved through
`create_child`/`create_dictionary`; for the list-like cases the child dtype
equals the dtype's inner type by definition of `get_child`, which the
recursion uses directly.  Each reconstructed array is zero-based, its length
read off the imported buffers (offsets slots minus one, values length, cell
count).  Physical types outside the modelled §4.5 set (Null / Boolean /
Struct / Union) are not modelled. -/
def read_array : ArrowDataType → ArrowArrayM → FfiM NativeArray
  | .Primitive pt, a =>
    mbind (array_validity a (.Primitive pt)) (fun v =>
    mbind (create_buffer a (.Primitive pt) 1) (fun vs =>
    mret (.primitive pt 0 vs.length vs (bitmap_to_validity v))))
  | .Utf8, a => read_varbin a .Utf8 false true
  | .LargeUtf8, a => read_varbin a .LargeUtf8 true true
  | .Binary, a => read_varbin a .Binary false false
  | .LargeBinary, a => read_varbin a .LargeBinary true false
  | .FixedSizeBinary size, a =>
    mbind (array_validity a (.FixedSizeBinary size)) (fun v =>
    mbind (create_buffer a (.FixedSizeBinary size) 1) (fun data =>
    mret (.fixedSizeBinary size 0 (data.length / size) data (bitmap_to_validity v))))
  | .List inner, a =>
    mbind (array_validity a (.List inner)) (fun v =>
    mbind (create_buffer a (.List inner) 1) (fun offs =>
    mbind (create_child a (.List inner) 0) (fun c =>
    mbind (read_array inner c.2) (fun child =>
    mret (.list false 0 (offs.length - 1) offs child (bitmap_to_validity v))))))
  | .LargeList inner, a =>
    mbind (array_validity a (.LargeList inner)) (fun v =>
    mbind (create_buffer a (.LargeList inner) 1) (fun offs =>
    mbind (create_child a (.LargeList inner) 0) (fun c =>
    mbind (read_array inner c.2) (fun child =>
    mret (.list true 0 (offs.length - 1) offs child (bitmap_to_validity v))))))
  | .FixedSizeList inner size, a =>
    mbind (array_validity a (.FixedSizeList inner size)) (fun v =>
    mbind (create_child a (.FixedSizeList inner size) 0) (fun c =>
    mbind (read_array inner c.2) (fun child =>
    mret (.fixedSizeList size (NativeArray.len child / size) child
      (bitmap_to_validity v)))))
  | .Map inner, a =>
    mbind (array_validity a (.Map inner)) (fun v =>
    mbind (create_buffer a (.Map inner) 1) (fun offs =>
    mbind (create_child a (.Map inner) 0) (fun c =>
    mbind (read_array inner c.2) (fun child =>
    mret (.map 0 (offs.length - 1) offs child (bitmap_to_validity v))))))
  | .BinaryView, a => read_binview a .BinaryView false
  | .Utf8View, a => read_binview a .Utf8View true
  | .Dictionary k value ord, a =>
    mbind (array_validity a (.Dictionary k value ord)) (fun v =>
    mbind (create_buffer a (.Dictionary k value ord) 1) (fun keys =>
      match create_dictionary a (.Dictionary k value ord) with
      | .error e => some (.error e)
      | .ok none => none
      | .ok (some dv) =>
        mbind (read_array value dv.2) (fun values =>
        mret (.dict k ord 0 keys.length keys (bitmap_to_validity v) values))))
  | _, _ => none

/-! ### Round-trip lemmas -/

theorem mbind_mret {α β : Type} (a : α) (f : α → FfiM β) :
    mbind (mret a) f = f a := rfl

theorem usize_cast_coe (n : Nat) (h : n < 18446744073709551616) :
    usize_cast (n : Int) = n := by
  simp only [usize_cast, two64]
  omega

theorem usize_cast_zero : usize_cast 0 = 0 := rfl

theorem usize_try_coe (n : Nat) : usize_try (n : Int) = some n := by
  simp [usize_try]

theorem usize_cast_small (x : Int) (h0 : 0 ≤ x) (h1 : x < 9223372036854775808) :
    usize_cast x = x.toNat := by
  simp only [usize_cast, two64]
  omega

theorem bits_of_window (bs : List Bool) :
    (bits_of bs).map (fun v => v != 0) = bs := by
  induction bs with
  | nil => rfl
  | cons b t ih =>
    cases b
    · simpa [bits_of] using ih
    · simpa [bits_of] using ih

theorem bits_of_length (bs : List Bool) : (bits_of bs).length = bs.length := by
  simp [bits_of]

theorem pad_bits_length (l : List Int) :
    (pad_bits l).length = 8 * bytes_for l.length := by
  simp only [pad_bits, List.length_append, List.length_replicate, bytes_for]
  omega

theorem bits_of_drop_take (bs : List Bool) (off len : Nat) :
    bits_of ((bs.drop off).take len) = ((bits_of bs).drop off).take len := by
  simp [bits_of, List.map_take, List.map_drop]

theorem getD_true_of_all_true (bs : List Bool) (h : bs.count false = 0) (i : Nat) :
    bs.getD i true = true := by
  have hnf : false ∉ bs := List.count_eq_zero.mp h
  by_cases hi : i < bs.length
  · rw [List.getD_eq_getElem?_getD, List.getElem?_eq_getElem hi]
    simp only [Option.getD_some]
    cases hb : bs[i]
    · exact absurd (hb ▸ List.getElem_mem hi) hnf
    · rfl
  · rw [List.getD_eq_getElem?_getD, List.getElem?_eq_none (by omega)]
    rfl

theorem getElem?_window {α : Type} (l : List α) (off len i : Nat) (hi : i < len) :
    ((l.drop off).take len)[i]? = l[off + i]? := by
  rw [List.getElem?_take_of_lt hi, List.getElem?_drop]

theorem getD_window {α : Type} (l : List α) (off len i : Nat) (d : α) (hi : i < len) :
    ((l.drop off).take len).getD i d = l.getD (off + i) d := by
  rw [List.getD_eq_getElem?_getD, List.getD_eq_getElem?_getD,
    getElem?_window l off len i hi]

theorem length_window {α : Type} (l : List α) (off len : Nat)
    (hcov : off + len ≤ l.length) : ((l.drop off).take len).length = len := by
  rw [List.length_take, List.length_drop]
  omega

theorem take_window {α : Type} (l : List α) (B off len : Nat) (h : off + len ≤ B) :
    ((l.take B).drop off).take len = (l.drop off).take len := by
  rw [List.drop_take, List.take_take]
  congr 1
  omega

theorem window_append {α : Type} (l r : List α) (off len : Nat)
    (h : off + len ≤ l.length) :
    ((l ++ r).drop off).take len = (l.drop off).take len := by
  apply List.ext_getElem?
  intro n
  by_cases hn : n < len
  · rw [getElem?_window _ off len n hn, getElem?_window _ off len n hn,
      List.getElem?_append, if_pos (by omega)]
  · have h1 : (((l ++ r).drop off).take len).length ≤ n := by
      rw [List.length_take]
      omega
    have h2 : ((l.drop off).take len).length ≤ n := by
      rw [List.length_take]
      omega
    rw [List.getElem?_eq_none h1, List.getElem?_eq_none h2]

theorem getElem?_of_getD {α : Type} (l : List α) (n : Nat) (d : α)
    (h : n < l.length) : l[n]? = some (l.getD n d) := by
  rw [List.getD_eq_getElem?_getD, List.getElem?_eq_getElem h]
  rfl

theorem null_at_import (v : Option (List Bool)) (off len i : Nat) (hi : i < len) :
    null_at (import_validity_of v off len) i = null_at v (off + i) := by
  cases v with
  | none => rfl
  | some bs =>
    have hw : ((bs.drop off).take len).getD i true = bs.getD (off + i) true :=
      getD_window bs off len i true hi
    by_cases h : ((bs.drop off).take len).count false = 0
    · have h2 : bs.getD (off + i) true = true := by
        rw [← hw]
        exact getD_true_of_all_true _ h i
      simp only [import_validity_of, if_pos h, null_at, h2, Bool.not_true]
    · simp only [import_validity_of, if_neg h, null_at, hw]

theorem window_nc_import (v : Option (List Bool)) (off len : Nat) :
    window_nc (import_validity_of v off len) 0 len = window_nc v off len := by
  cases v with
  | none => rfl
  | some bs =>
    by_cases h : ((bs.drop off).take len).count false = 0
    · simp [import_validity_of, h, window_nc]
    · have hlen : ((bs.drop off).take len).length ≤ len := by
        rw [List.length_take]
        omega
      simp only [import_validity_of, if_neg h, window_nc, List.drop_zero]
      rw [List.take_of_length_le hlen]

theorem slice_nat_window {α : Type} (l : List α) (p q a b : Nat) (hbq : b ≤ q) :
    slice_nat ((l.drop p).take q) a b = slice_nat l (p + a) (p + b) := by
  simp only [slice_nat]
  rw [List.drop_take, List.drop_drop, List.take_take]
  have h1 : min (b - a) (q - a) = b - a := by omega
  have h2 : p + b - (p + a) = b - a := by omega
  rw [h1, h2]

theorem slice_nat_take {α : Type} (l : List α) (T a b : Nat) (hbT : b ≤ T) :
    slice_nat (l.take T) a b = slice_nat l a b := by
  have h := slice_nat_window l 0 T a b hbT
  rw [List.drop_zero] at h
  rw [h]
  simp only [slice_nat, Nat.zero_add]

theorem pairwise_le_getD (l : List Int)
    (h : List.Pairwise (fun x y => x ≤ y) l)
    (i j : Nat) (hij : i ≤ j) (hj : j < l.length) :
    l.getD i 0 ≤ l.getD j 0 := by
  rcases Nat.lt_or_ge i j with hlt | hge
  · have hi : i < l.length := by omega
    rw [List.getD_eq_getElem?_getD, List.getElem?_eq_getElem hi,
      List.getD_eq_getElem?_getD, List.getElem?_eq_getElem hj]
    simp only [Option.getD_some]
    exact List.pairwise_iff_getElem.mp h i j hi hj hlt
  · have hij2 : i = j := by omega
    subst hij2
    exact le_refl _

theorem all_entries_bound (l : List Int)
    (h : l.all (fun o => decide (0 ≤ o) &&
      decide (o < (9223372036854775808 : Int))) = true)
    (n : Nat) (hn : n < l.length) :
    0 ≤ l.getD n 0 ∧ l.getD n 0 < (9223372036854775808 : Int) := by
  have hmem : l.getD n 0 ∈ l := by
    rw [List.getD_eq_getElem?_getD, List.getElem?_eq_getElem hn]
    simp only [Option.getD_some]
    exact List.getElem_mem hn
  have h2 := List.all_eq_true.mp h _ hmem
  simpa using h2

theorem varbin_data_len_at (a : ArrowArrayM) (dt : ArrowDataType)
    (bs : BuffersArr) (b : Buf) (v : Int)
    (h : dt.to_physical_type ∈
      ([.Utf8, .LargeUtf8, .Binary, .LargeBinary] : List PhysicalType))
    (hbs : a.buffers = some bs)
    (hptr : bs.ptrs[1]? = some (some b))
    (hv : b.data[(usize_cast a.offset + usize_cast a.length + 1) - 1]? = some v) :
    buffer_len a dt 2 = some (usize_cast v) := by
  cases dt <;> first
    | (simp only [buffer_len, ArrowDataType.to_physical_type, hbs, hptr, hv]; done)
    | (exfalso; simp [ArrowDataType.to_physical_type] at h)

theorem array_validity_exported (a : ArrowArrayM) (dt : ArrowDataType)
    (v : Option (List Bool)) (off len : Nat) (rest : List (Option Buf))
    (hl : a.length = (len : Int))
    (hnc : a.null_count = (window_nc v off len : Int))
    (hoff : a.offset = (off : Int))
    (hb : a.buffers = some ⟨false, validity_buf v :: rest⟩)
    (hnb : 0 < usize_cast a.n_buffers)
    (hcov : validity_covers v (off + len) = true)
    (hn : off + len < two63) :
    ∃ ob : Option BitmapM, array_validity a dt = mret ob ∧
      bitmap_to_validity ob = import_validity_of v off len := by
  have hn2 : off + len < 9223372036854775808 := hn
  have hncle : window_nc v off len ≤ len := by
    cases v with
    | none => exact Nat.zero_le len
    | some bs =>
      calc ((bs.drop off).take len).count false
          ≤ ((bs.drop off).take len).length := List.count_le_length false _
        _ ≤ len := by rw [List.length_take]; omega
  have hcast : usize_cast a.null_count = window_nc v off len := by
    rw [hnc]
    exact usize_cast_coe _ (by omega)
  by_cases h0 : window_nc v off len = 0
  · refine ⟨none, ?_, ?_⟩
    · simp [array_validity, hcast, h0]
    · cases v with
      | none => rfl
      | some bs =>
        have hz : ((bs.drop off).take len).count false = 0 := h0
        simp [bitmap_to_validity, import_validity_of, hz]
  · obtain ⟨bs, hv⟩ : ∃ bs, v = some bs := by
      cases v with
      | none => exact absurd rfl h0
      | some bs => exact ⟨bs, rfl⟩
    subst hv
    have hbl : off + len ≤ bs.length := by
      simpa [validity_covers] using hcov
    have hcount : ((bs.drop off).take len).count false ≠ 0 := h0
    have hlz : len ≠ 0 := by
      intro h
      apply hcount
      subst h
      simp
    refine ⟨some ⟨(pad_bits (bits_of bs)).take (8 * bytes_for (off + len)), off, len,
      some (usize_cast a.null_count)⟩, ?_, ?_⟩
    · simp only [array_validity, hcast, if_neg h0]
      have h1 : usize_try ((len : Nat) : Int) = some len := usize_try_coe len
      have h2 : usize_try ((off : Nat) : Int) = some off := usize_try_coe off
      have h4 : 8 * bytes_for (off + len) ≤ (pad_bits (bits_of bs)).length := by
        rw [pad_bits_length, bits_of_length]
        simp only [bytes_for]
        omega
      simp only [create_bitmap, hl, h1, if_neg hlz, get_buffer_ptr, hb,
        Bool.false_eq_true, if_false, if_pos hnb, List.getElem?_cons_zero,
        validity_buf, mbind, mret, hoff, h2, if_pos h4, if_true]
      simp [h4, hcast]
    · simp only [bitmap_to_validity, Option.map_some', BitmapM.window]
      rw [take_window (pad_bits (bits_of bs)) (8 * bytes_for (off + len)) off len
        (by simp only [bytes_for]; omega)]
      rw [show pad_bits (bits_of bs) = bits_of bs ++ List.replicate
        (8 * bytes_for (bits_of bs).length - (bits_of bs).length) 0 from rfl]
      rw [window_append _ _ off len (by rw [bits_of_length]; omega)]
      rw [← bits_of_drop_take, bits_of_window]
      simp [import_validity_of, hcount]

theorem create_buffer_exported (a : ArrowArrayM) (dt : ArrowDataType)
    (index : Nat) (ptrs : List (Option Buf)) (storage : List Int) (len off : Nat)
    (hb : a.buffers = some ⟨false, ptrs⟩)
    (hp : ptrs[index]? = some (some ⟨storage, false⟩))
    (hlen : buffer_len a dt index = some len)
    (hoff : buffer_offset a dt index = some off)
    (hsz : len ≤ storage.length)
    (hnb : index < usize_cast a.n_buffers) :
    create_buffer a dt index = mret ((storage.drop off).take (len - off)) := by
  simp only [create_buffer, hlen, hoff]
  by_cases hz : len = 0
  · subst hz
    simp [mret, Nat.zero_sub]
  · simp only [if_neg hz]
    simp only [get_buffer_ptr, hb, Bool.false_eq_true, if_false, if_pos hnb, hp]
    simp only [mbind, mret]
    simp only [if_pos hsz]
    simp

theorem create_buffer_known_len_exported (a : ArrowArrayM) (dt : ArrowDataType)
    (index : Nat) (ptrs : List (Option Buf)) (d : List Int)
    (hb : a.buffers = some ⟨false, ptrs⟩)
    (hp : ptrs[index]? = some (some ⟨d, false⟩))
    (hnb : index < usize_cast a.n_buffers) :
    create_buffer_known_len a dt d.length index = mret d := by
  by_cases hz : d.length = 0
  · have : d = [] := List.length_eq_zero.mp hz
    simp [create_buffer_known_len, hz, this]
  · simp only [create_buffer_known_len, if_neg hz]
    simp only [get_buffer_ptr, hb, Bool.false_eq_true, if_false, if_pos hnb, hp]
    simp only [mbind, mret]
    simp only [if_pos (Nat.le_refl d.length), List.take_length]

theorem read_variadic_exported (a : ArrowArrayM) (dt : ArrowDataType)
    (ptrs : List (Option Buf)) (hb : a.buffers = some ⟨false, ptrs⟩) :
    ∀ (bufs : List (List Int)) (i : Nat),
      (∀ j, j < bufs.length → ptrs[i + j]? = some (some ⟨bufs.getD j [], false⟩)) →
      (∀ j, j < bufs.length → i + j < usize_cast a.n_buffers) →
      (∀ d ∈ bufs, d.length < 18446744073709551616) →
      read_variadic a dt (bufs.map (fun d => (d.length : Int))) i = mret bufs := by
  intro bufs
  induction bufs with
  | nil => intro i hp hnb hlt; rfl
  | cons d rest ih =>
    intro i hp hnb hlt
    simp only [List.map_cons, read_variadic]
    have hc : usize_cast ((d.length : Nat) : Int) = d.length :=
      usize_cast_coe _ (hlt d (by simp))
    rw [hc]
    rw [create_buffer_known_len_exported a dt i ptrs d hb
      (by have := hp 0 (by simp); simpa using this)
      (by have := hnb 0 (by simp); simpa using this), mbind_mret]
    rw [ih (i + 1)
      (fun j hj => by
        have := hp (j + 1) (by simp; omega)
        simpa [Nat.add_assoc, Nat.add_comm 1 j] using this)
      (fun j hj => by
        have := hnb (j + 1) (by simp; omega)
        simpa [Nat.add_assoc, Nat.add_comm 1 j] using this)
      (fun x hx => hlt x (by simp [hx])), mbind_mret]

theorem rebase_len (A : NativeArray) : A.rebase.len = A.len := by
  cases A <;> rfl

theorem rebase_null_count_top (A : NativeArray) :
    A.rebase.null_count_top = A.null_count_top := by
  cases A <;>
    simp only [NativeArray.rebase, NativeArray.null_count_top, window_nc_import]

theorem read_export (A : NativeArray) (hwf : A.wf = true) :
    read_array A.dtypeOf (export_array A) = mret A.rebase := by
  induction A with
  | primitive pt off len vs v =>
    simp only [NativeArray.wf, Bool.and_eq_true, decide_eq_true_eq] at hwf
    obtain ⟨⟨hsz, hcov⟩, h63⟩ := hwf
    have h63n : off + len < 9223372036854775808 := h63
    have hco : usize_cast ((off : Nat) : Int) = off := usize_cast_coe off (by omega)
    have hcl : usize_cast ((len : Nat) : Int) = len := usize_cast_coe len (by omega)
    obtain ⟨ob, hov, hbv⟩ := array_validity_exported
      (export_array (.primitive pt off len vs v)) (.Primitive pt) v off len _
      rfl rfl rfl rfl (by show (0 : Nat) < usize_cast 2; decide) hcov h63
    show read_array (.Primitive pt) (export_array (.primitive pt off len vs v)) =
      mret (.primitive pt 0 len ((vs.drop off).take len) (import_validity_of v off len))
    simp only [read_array]
    rw [hov, mbind_mret]
    rw [create_buffer_exported (export_array (.primitive pt off len vs v))
      (.Primitive pt) 1 [validity_buf v, some ⟨vs, false⟩] vs (off + len) off rfl
      (by simp)
      (by show some (usize_cast ((off : Nat) : Int) + usize_cast ((len : Nat) : Int)) =
            some (off + len)
          rw [hco, hcl])
      (by show usize_try ((off : Nat) : Int) = some off
          exact usize_try_coe off)
      hsz (by show (1 : Nat) < usize_cast 2; decide), mbind_mret]
    rw [show off + len - off = len from by omega]
    rw [length_window vs off len hsz]
    rw [hbv]
  | binary large utf8 off len offs data v =>
    simp only [NativeArray.wf, Bool.and_eq_true, decide_eq_true_eq] at hwf
    obtain ⟨⟨⟨⟨⟨h1, hcov⟩, h63⟩, hall⟩, hpw⟩, hEb⟩ := hwf
    have h63n : off + len + 1 < 9223372036854775808 := h63
    have hco : usize_cast ((off : Nat) : Int) = off := usize_cast_coe off (by omega)
    have hcl : usize_cast ((len : Nat) : Int) = len := usize_cast_coe len (by omega)
    have hEbd := all_entries_bound offs hall (off + len) (by omega)
    have hEcast : usize_cast (offs.getD (off + len) 0) =
        (offs.getD (off + len) 0).toNat := usize_cast_small _ hEbd.1 hEbd.2
    have hsz2 : (offs.getD (off + len) 0).toNat ≤ data.length := by omega
    obtain ⟨ob, hov, hbv⟩ := array_validity_exported
      (export_array (.binary large utf8 off len offs data v))
      (NativeArray.dtypeOf (.binary large utf8 off len offs data v)) v off len _
      rfl rfl rfl rfl (by show (0 : Nat) < usize_cast 3; decide) hcov
      (by show off + len < 9223372036854775808; omega)
    have main : ∀ dtX : ArrowDataType,
        (dtX.to_physical_type = .Utf8 ∨ dtX.to_physical_type = .LargeUtf8 ∨
          dtX.to_physical_type = .Binary ∨ dtX.to_physical_type = .LargeBinary) →
        NativeArray.dtypeOf (.binary large utf8 off len offs data v) = dtX →
        read_varbin (export_array (.binary large utf8 off len offs data v)) dtX
            large utf8 =
          mret (NativeArray.binary large utf8 0 len ((offs.drop off).take (len + 1))
            (data.take (offs.getD (off + len) 0).toNat)
            (import_validity_of v off len)) := by
      intro dtX hphys hdt
      have hlen1 : buffer_len (export_array (.binary large utf8 off len offs data v))
          dtX 1 = some (off + len + 1) := by
        have h := varbin_offsets_len
          (export_array (.binary large utf8 off len offs data v)) dtX
          (by rcases hphys with h | h | h | h <;> simp [h])
        rw [h]
        show some (usize_cast ((off : Nat) : Int) + usize_cast ((len : Nat) : Int) + 1) =
          some (off + len + 1)
        rw [hco, hcl]
      have hvE : (offs : List Int)[(usize_cast
          (export_array (.binary large utf8 off len offs data v)).offset +
          usize_cast (export_array (.binary large utf8 off len offs data v)).length + 1)
            - 1]? = some (offs.getD (off + len) 0) := by
        show offs[(usize_cast ((off : Nat) : Int) + usize_cast ((len : Nat) : Int) + 1)
          - 1]? = some (offs.getD (off + len) 0)
        rw [hco, hcl]
        rw [show off + len + 1 - 1 = off + len from by omega]
        exact getElem?_of_getD offs (off + len) 0 (by omega)
      have hlen2 : buffer_len (export_array (.binary large utf8 off len offs data v))
          dtX 2 = some (offs.getD (off + len) 0).toNat := by
        have h := varbin_data_len_at
          (export_array (.binary large utf8 off len offs data v)) dtX
          ⟨false, [validity_buf v, some ⟨offs, false⟩, some ⟨data, false⟩]⟩
          ⟨offs, false⟩ (offs.getD (off + len) 0)
          (by rcases hphys with h | h | h | h <;> simp [h])
          rfl (by simp) hvE
        rw [h, hEcast]
      have hoffb1 : buffer_offset (export_array (.binary large utf8 off len offs data v))
          dtX 1 = some off := by
        have h := buffer_offset_default
          (export_array (.binary large utf8 off len offs data v)) dtX 1
          (by show (0 : Int) ≤ ((off : Nat) : Int); omega)
          (by intro hmem h1x; cases h1x)
          (by intro hfsb
              rcases hphys with h | h | h | h <;> rw [h] at hfsb <;> cases hfsb)
        rw [h]
        show some ((((off : Nat) : Int)).toNat) = some off
        rw [Int.toNat_natCast]
      have hoffb2 : buffer_offset (export_array (.binary large utf8 off len offs data v))
          dtX 2 = some 0 :=
        buffer_offset_data_zero (export_array (.binary large utf8 off len offs data v))
          dtX (by show (0 : Int) ≤ ((off : Nat) : Int); omega)
          (by rcases hphys with h | h | h | h <;> simp [h])
      rw [hdt] at hov
      rw [read_varbin]
      rw [hov, mbind_mret]
      rw [create_buffer_exported (export_array (.binary large utf8 off len offs data v))
        dtX 1 [validity_buf v, some ⟨offs, false⟩, some ⟨data, false⟩] offs
        (off + len + 1) off rfl (by simp) hlen1 hoffb1 h1
        (by show (1 : Nat) < usize_cast 3; decide), mbind_mret]
      rw [create_buffer_exported (export_array (.binary large utf8 off len offs data v))
        dtX 2 [validity_buf v, some ⟨offs, false⟩, some ⟨data, false⟩] data
        ((offs.getD (off + len) 0).toNat) 0 rfl (by simp) hlen2 hoffb2 hsz2
        (by show (2 : Nat) < usize_cast 3; decide), mbind_mret]
      rw [show off + len + 1 - off = len + 1 from by omega]
      rw [List.drop_zero, Nat.sub_zero]
      rw [length_window offs off (len + 1) (by omega)]
      rw [Nat.add_sub_cancel]
      rw [hbv]
    cases large <;> cases utf8
    · exact main .Binary (by simp [ArrowDataType.to_physical_type]) rfl
    · exact main .Utf8 (by simp [ArrowDataType.to_physical_type]) rfl
    · exact main .LargeBinary (by simp [ArrowDataType.to_physical_type]) rfl
    · exact main .LargeUtf8 (by simp [ArrowDataType.to_physical_type]) rfl
  | fixedSizeBinary size off len data v =>
    simp only [NativeArray.wf, Bool.and_eq_true, Bool.or_eq_true,
      decide_eq_true_eq] at hwf
    obtain ⟨⟨⟨hsz, hcov⟩, h63⟩, hor⟩ := hwf
    have h63n : off + len < 9223372036854775808 := h63
    have hco : usize_cast ((off : Nat) : Int) = off := usize_cast_coe off (by omega)
    have hcl : usize_cast ((len : Nat) : Int) = len := usize_cast_coe len (by omega)
    obtain ⟨ob, hov, hbv⟩ := array_validity_exported
      (export_array (.fixedSizeBinary size off len data v)) (.FixedSizeBinary size)
      v off len _ rfl rfl rfl rfl (by show (0 : Nat) < usize_cast 2; decide) hcov h63
    show read_array (.FixedSizeBinary size)
        (export_array (.fixedSizeBinary size off len data v)) =
      mret (.fixedSizeBinary size 0 len
        ((data.drop (off * size)).take (size * (off + len) - off * size))
        (import_validity_of v off len))
    simp only [read_array]
    rw [hov, mbind_mret]
    rw [create_buffer_exported (export_array (.fixedSizeBinary size off len data v))
      (.FixedSizeBinary size) 1 [validity_buf v, some ⟨data, false⟩] data
      (size * (off + len)) (off * size) rfl (by simp)
      (by show some (size * (usize_cast ((off : Nat) : Int) +
            usize_cast ((len : Nat) : Int))) = some (size * (off + len))
          rw [hco, hcl])
      (by rw [buffer_offset_fsb _ size (by show (0 : Int) ≤ ((off : Nat) : Int); omega)]
          show some ((((off : Nat) : Int)).toNat * size) = some (off * size)
          rw [Int.toNat_natCast])
      hsz (by show (1 : Nat) < usize_cast 2; decide), mbind_mret]
    have hD : ((data.drop (off * size)).take (size * (off + len) - off * size)).length
        = size * len := by
      rw [List.length_take, List.length_drop]
      have e1 : size * (off + len) = size * off + size * len := Nat.mul_add size off len
      have e2 : off * size = size * off := Nat.mul_comm off size
      omega
    rw [hD]
    rw [show size * len / size = len from by
      rcases hor with hs | hl0
      · rw [Nat.mul_div_cancel_left len hs]
      · subst hl0
        simp]
    rw [hbv]
  | list large off len offs c v ih =>
    simp only [NativeArray.wf, Bool.and_eq_true, decide_eq_true_eq] at hwf
    obtain ⟨⟨⟨h1, hcov⟩, h63⟩, hwfc⟩ := hwf
    have h63n : off + len + 1 < 9223372036854775808 := h63
    have hco : usize_cast ((off : Nat) : Int) = off := usize_cast_coe off (by omega)
    have hcl : usize_cast ((len : Nat) : Int) = len := usize_cast_coe len (by omega)
    have ihc := ih hwfc
    obtain ⟨ob, hov, hbv⟩ := array_validity_exported
      (export_array (.list large off len offs c v))
      (NativeArray.dtypeOf (.list large off len offs c v)) v off len _
      rfl rfl rfl rfl (by show (0 : Nat) < usize_cast 2; decide) hcov
      (by show off + len < 9223372036854775808; omega)
    have main : ∀ (dtX : ArrowDataType) (lrg : Bool),
        (dtX = .List (NativeArray.dtypeOf c) ∧ lrg = false ∨
          dtX = .LargeList (NativeArray.dtypeOf c) ∧ lrg = true) →
        NativeArray.dtypeOf (.list large off len offs c v) = dtX →
        mbind (array_validity (export_array (.list large off len offs c v)) dtX)
          (fun v0 =>
        mbind (create_buffer (export_array (.list large off len offs c v)) dtX 1)
          (fun offs0 =>
        mbind (create_child (export_array (.list large off len offs c v)) dtX 0)
          (fun cc =>
        mbind (read_array (NativeArray.dtypeOf c) cc.2) (fun child =>
        mret (NativeArray.list lrg 0 (offs0.length - 1) offs0 child
          (bitmap_to_validity v0)))))) =
          mret (NativeArray.list lrg 0 len ((offs.drop off).take (len + 1)) c.rebase
            (import_validity_of v off len)) := by
      intro dtX lrg hcase hdt
      have hlenX : buffer_len (export_array (.list large off len offs c v)) dtX 1 =
          some (off + len + 1) := by
        have h : buffer_len (export_array (.list large off len offs c v)) dtX 1 =
            some (usize_cast ((off : Nat) : Int) + usize_cast ((len : Nat) : Int) + 1) := by
          rcases hcase with ⟨h, _⟩ | ⟨h, _⟩ <;> subst h <;> rfl
        rw [h, hco, hcl]
      have hoffX : buffer_offset (export_array (.list large off len offs c v)) dtX 1 =
          some off := by
        have h : buffer_offset (export_array (.list large off len offs c v)) dtX 1 =
            usize_try ((off : Nat) : Int) := by
          rcases hcase with ⟨h, _⟩ | ⟨h, _⟩ <;> subst h <;> rfl
        rw [h, usize_try_coe]
      have hchild : create_child (export_array (.list large off len offs c v)) dtX 0 =
          mret (NativeArray.dtypeOf c, export_array c) := by
        rcases hcase with ⟨h, _⟩ | ⟨h, _⟩ <;> subst h <;> rfl
      rw [hdt] at hov
      rw [hov, mbind_mret]
      rw [create_buffer_exported (export_array (.list large off len offs c v)) dtX 1
        [validity_buf v, some ⟨offs, false⟩] offs (off + len + 1) off rfl (by simp)
        hlenX hoffX h1 (by show (1 : Nat) < usize_cast 2; decide), mbind_mret]
      rw [hchild, mbind_mret]
      rw [ihc, mbind_mret]
      rw [show off + len + 1 - off = len + 1 from by omega]
      rw [length_window offs off (len + 1) (by omega), Nat.add_sub_cancel]
      rw [hbv]
    cases large
    · show read_array (.List (NativeArray.dtypeOf c))
          (export_array (.list false off len offs c v)) =
        mret (NativeArray.list false 0 len ((offs.drop off).take (len + 1)) c.rebase
          (import_validity_of v off len))
      simp only [read_array]
      exact main (.List (NativeArray.dtypeOf c)) false (Or.inl ⟨rfl, rfl⟩) rfl
    · show read_array (.LargeList (NativeArray.dtypeOf c))
          (export_array (.list true off len offs c v)) =
        mret (NativeArray.list true 0 len ((offs.drop off).take (len + 1)) c.rebase
          (import_validity_of v off len))
      simp only [read_array]
      exact main (.LargeList (NativeArray.dtypeOf c)) true (Or.inr ⟨rfl, rfl⟩) rfl
  | fixedSizeList size len c v ih =>
    simp only [NativeArray.wf, Bool.and_eq_true, decide_eq_true_eq] at hwf
    obtain ⟨⟨⟨hcov, h63⟩, hdveq⟩, hwfc⟩ := hwf
    have ihc := ih hwfc
    obtain ⟨ob, hov, hbv⟩ := array_validity_exported
      (export_array (.fixedSizeList size len c v))
      (.FixedSizeList (NativeArray.dtypeOf c) size) v 0 len _
      rfl rfl rfl rfl (by show (0 : Nat) < usize_cast 1; decide)
      (by rw [Nat.zero_add]; exact hcov)
      (by show 0 + len < 9223372036854775808
          have h2 : len < 9223372036854775808 := h63
          omega)
    show read_array (.FixedSizeList (NativeArray.dtypeOf c) size)
      (export_array (.fixedSizeList size len c v)) =
      mret (.fixedSizeList size len c.rebase (import_validity_of v 0 len))
    simp only [read_array]
    rw [hov, mbind_mret]
    rw [show create_child (export_array (.fixedSizeList size len c v))
        (.FixedSizeList (NativeArray.dtypeOf c) size) 0 =
        mret (NativeArray.dtypeOf c, export_array c) from rfl, mbind_mret]
    rw [ihc, mbind_mret]
    rw [rebase_len c, hdveq]
    rw [hbv]
  | map off len offs c v ih =>
    simp only [NativeArray.wf, Bool.and_eq_true, decide_eq_true_eq] at hwf
    obtain ⟨⟨⟨h1, hcov⟩, h63⟩, hwfc⟩ := hwf
    have h63n : off + len + 1 < 9223372036854775808 := h63
    have hco : usize_cast ((off : Nat) : Int) = off := usize_cast_coe off (by omega)
    have hcl : usize_cast ((len : Nat) : Int) = len := usize_cast_coe len (by omega)
    have ihc := ih hwfc
    obtain ⟨ob, hov, hbv⟩ := array_validity_exported
      (export_array (.map off len offs c v)) (.Map (NativeArray.dtypeOf c)) v off len _
      rfl rfl rfl rfl (by show (0 : Nat) < usize_cast 2; decide) hcov
      (by show off + len < 9223372036854775808; omega)
    show read_array (.Map (NativeArray.dtypeOf c)) (export_array (.map off len offs c v)) =
      mret (.map 0 len ((offs.drop off).take (len + 1)) c.rebase
        (import_validity_of v off len))
    simp only [read_array]
    rw [hov, mbind_mret]
    rw [create_buffer_exported (export_array (.map off len offs c v))
      (.Map (NativeArray.dtypeOf c)) 1 [validity_buf v, some ⟨offs, false⟩] offs
      (off + len + 1) off rfl (by simp)
      (by show some (usize_cast ((off : Nat) : Int) + usize_cast ((len : Nat) : Int) + 1) =
            some (off + len + 1)
          rw [hco, hcl])
      (by show usize_try ((off : Nat) : Int) = some off
          exact usize_try_coe off)
      h1 (by show (1 : Nat) < usize_cast 2; decide), mbind_mret]
    rw [show create_child (export_array (.map off len offs c v))
        (.Map (NativeArray.dtypeOf c)) 0 =
        mret (NativeArray.dtypeOf c, export_array c) from rfl, mbind_mret]
    rw [ihc, mbind_mret]
    rw [show off + len + 1 - off = len + 1 from by omega]
    rw [length_window offs off (len + 1) (by omega), Nat.add_sub_cancel]
    rw [hbv]
  | binview utf8 off len views bufs v =>
    simp only [NativeArray.wf, Bool.and_eq_true, decide_eq_true_eq,
      List.all_eq_true] at hwf
    obtain ⟨⟨⟨⟨hvw, hcov⟩, h63⟩, hnb63⟩, hall⟩ := hwf
    have h63n : off + len < 9223372036854775808 := h63
    have hnb63n : 3 + bufs.length < 9223372036854775808 := hnb63
    have hco : usize_cast ((off : Nat) : Int) = off := usize_cast_coe off (by omega)
    have hcl : usize_cast ((len : Nat) : Int) = len := usize_cast_coe len (by omega)
    have hcnb : usize_cast ((3 + bufs.length : Nat) : Int) = 3 + bufs.length :=
      usize_cast_coe _ (by omega)
    have hnbv : (export_array (.binview utf8 off len views bufs v)).n_buffers =
        ((3 + bufs.length : Nat) : Int) := rfl
    obtain ⟨ob, hov, hbv⟩ := array_validity_exported
      (export_array (.binview utf8 off len views bufs v))
      (NativeArray.dtypeOf (.binview utf8 off len views bufs v)) v off len _
      rfl rfl rfl rfl (by rw [hnbv, hcnb]; omega) hcov h63
    have hptrs : (export_array (.binview utf8 off len views bufs v)).buffers =
        some ⟨false, validity_buf v :: some ⟨views, false⟩ ::
          (bufs.map (fun d => some ⟨d, false⟩) ++
            [some ⟨bufs.map (fun d => ((d.length : Nat) : Int)), false⟩])⟩ := rfl
    have main : ∀ (dtX : ArrowDataType) (u : Bool),
        (dtX = .BinaryView ∧ u = false ∨ dtX = .Utf8View ∧ u = true) →
        NativeArray.dtypeOf (.binview utf8 off len views bufs v) = dtX →
        read_binview (export_array (.binview utf8 off len views bufs v)) dtX u =
          mret (NativeArray.binview u 0 len ((views.drop off).take len) bufs
            (import_validity_of v off len)) := by
      intro dtX u hcase hdt
      rw [hdt] at hov
      rw [read_binview, hov, mbind_mret]
      have hlenv : buffer_len (export_array (.binview utf8 off len views bufs v)) dtX 1 =
          some (off + len) := by
        have h : buffer_len (export_array (.binview utf8 off len views bufs v)) dtX 1 =
            some (usize_cast ((off : Nat) : Int) + usize_cast ((len : Nat) : Int)) := by
          rcases hcase with ⟨h, _⟩ | ⟨h, _⟩ <;> subst h <;> rfl
        rw [h, hco, hcl]
      have hoffv : buffer_offset (export_array (.binview utf8 off len views bufs v)) dtX 1 =
          some off := by
        have h : buffer_offset (export_array (.binview utf8 off len views bufs v)) dtX 1 =
            usize_try ((off : Nat) : Int) := by
          rcases hcase with ⟨h, _⟩ | ⟨h, _⟩ <;> subst h <;> rfl
        rw [h, usize_try_coe]
      rw [create_buffer_exported (export_array (.binview utf8 off len views bufs v)) dtX 1
        _ views (off + len) off hptrs (by simp) hlenv hoffv hvw
        (by rw [hnbv, hcnb]; omega), mbind_mret]
      have hszn : usize_cast (export_array (.binview utf8 off len views bufs v)).n_buffers
          - 3 = (bufs.map (fun d => ((d.length : Nat) : Int))).length := by
        rw [hnbv, hcnb]
        simp
      rw [hszn]
      rw [create_buffer_known_len_exported
        (export_array (.binview utf8 off len views bufs v)) dtX
        (usize_cast (export_array (.binview utf8 off len views bufs v)).n_buffers - 1)
        _ (bufs.map (fun d => ((d.length : Nat) : Int))) hptrs
        (by rw [hnbv, hcnb]
            rw [show 3 + bufs.length - 1 = bufs.length + 2 from by omega]
            simp only [List.getElem?_cons_succ]
            rw [List.getElem?_append_right (by simp)]
            simp)
        (by rw [hnbv, hcnb]; omega), mbind_mret]
      rw [read_variadic_exported (export_array (.binview utf8 off len views bufs v)) dtX
        _ hptrs bufs 2
        (fun j hj => by
          rw [Nat.add_comm 2 j]
          simp only [List.getElem?_cons_succ]
          rw [List.getElem?_append, if_pos (by simpa using hj)]
          rw [List.getElem?_map]
          rw [List.getElem?_eq_getElem hj]
          simp [List.getD_eq_getElem?_getD, List.getElem?_eq_getElem hj])
        (fun j hj => by
          rw [hnbv, hcnb]
          omega)
        (fun d hd => by
          have h2 : d.length < 9223372036854775808 := hall d hd
          omega), mbind_mret]
      rw [show off + len - off = len from by omega]
      rw [length_window views off len hvw]
      rw [hbv]
    cases utf8
    · show read_binview (export_array (.binview false off len views bufs v))
          .BinaryView false =
        mret (NativeArray.binview false 0 len ((views.drop off).take len) bufs
          (import_validity_of v off len))
      exact main .BinaryView false (Or.inl ⟨rfl, rfl⟩) rfl
    · show read_binview (export_array (.binview true off len views bufs v))
          .Utf8View true =
        mret (NativeArray.binview true 0 len ((views.drop off).take len) bufs
          (import_validity_of v off len))
      exact main .Utf8View true (Or.inr ⟨rfl, rfl⟩) rfl
  | dict k o off len keys kv values ih =>
    simp only [NativeArray.wf, Bool.and_eq_true, decide_eq_true_eq] at hwf
    obtain ⟨⟨⟨hk, hcov⟩, h63⟩, hwfv⟩ := hwf
    have h63n : off + len < 9223372036854775808 := h63
    have hco : usize_cast ((off : Nat) : Int) = off := usize_cast_coe off (by omega)
    have hcl : usize_cast ((len : Nat) : Int) = len := usize_cast_coe len (by omega)
    have ihv := ih hwfv
    obtain ⟨ob, hov, hbv⟩ := array_validity_exported
      (export_array (.dict k o off len keys kv values))
      (.Dictionary k (NativeArray.dtypeOf values) o) kv off len _
      rfl rfl rfl rfl (by show (0 : Nat) < usize_cast 2; decide) hcov h63
    show read_array (.Dictionary k (NativeArray.dtypeOf values) o)
      (export_array (.dict k o off len keys kv values)) =
      mret (.dict k o 0 len ((keys.drop off).take len)
        (import_validity_of kv off len) values.rebase)
    simp only [read_array]
    rw [hov, mbind_mret]
    rw [create_buffer_exported (export_array (.dict k o off len keys kv values))
      (.Dictionary k (NativeArray.dtypeOf values) o) 1
      [validity_buf kv, some ⟨keys, false⟩] keys (off + len) off rfl (by simp)
      (by show some (usize_cast ((off : Nat) : Int) + usize_cast ((len : Nat) : Int)) =
            some (off + len)
          rw [hco, hcl])
      (by show usize_try ((off : Nat) : Int) = some off
          exact usize_try_coe off)
      hk (by show (1 : Nat) < usize_cast 2; decide), mbind_mret]
    rw [show off + len - off = len from by omega]
    rw [length_window keys off len hk]
    rw [show create_dictionary (export_array (.dict k o off len keys kv values))
        (.Dictionary k (NativeArray.dtypeOf values) o) =
        .ok (some (NativeArray.dtypeOf values, export_array values)) from rfl]
    show mbind (read_array (NativeArray.dtypeOf values) (export_array values)) (fun vv =>
        mret (NativeArray.dict k o 0 len ((keys.drop off).take len)
          (bitmap_to_validity ob) vv)) =
      mret (NativeArray.dict k o 0 len ((keys.drop off).take len)
        (import_validity_of kv off len) values.rebase)
    rw [ihv, mbind_mret, hbv]

theorem rebase_elems (A : NativeArray) (hwf : A.wf = true) :
    A.rebase.elems = A.elems := by
  induction A with
  | primitive pt off len vs v =>
    simp only [NativeArray.wf, Bool.and_eq_true, decide_eq_true_eq] at hwf
    obtain ⟨⟨hsz, hcov⟩, h63⟩ := hwf
    simp only [NativeArray.rebase, NativeArray.elems]
    apply List.map_congr_left
    intro i hi
    have hil : i < len := List.mem_range.mp hi
    simp only [Nat.zero_add]
    rw [null_at_import v off len i hil]
    rw [getD_window vs off len i 0 hil]
  | binary large utf8 off len offs data v =>
    simp only [NativeArray.wf, Bool.and_eq_true, decide_eq_true_eq] at hwf
    obtain ⟨⟨⟨⟨⟨h1, hcov⟩, h63⟩, hall⟩, hpw⟩, hEb⟩ := hwf
    have hEbd := all_entries_bound offs hall (off + len) (by omega)
    simp only [NativeArray.rebase, NativeArray.elems]
    apply List.map_congr_left
    intro i hi
    have hil : i < len := List.mem_range.mp hi
    simp only [Nat.zero_add]
    rw [null_at_import v off len i hil]
    rw [getD_window offs off (len + 1) i 0 (by omega)]
    rw [getD_window offs off (len + 1) (i + 1) 0 (by omega)]
    rw [← Nat.add_assoc]
    have hle : offs.getD (off + i + 1) 0 ≤ offs.getD (off + len) 0 :=
      pairwise_le_getD offs hpw (off + i + 1) (off + len) (by omega) (by omega)
    rw [slice_nat_take data ((offs.getD (off + len) 0).toNat)
      ((offs.getD (off + i) 0).toNat) ((offs.getD (off + i + 1) 0).toNat) (by omega)]
  | fixedSizeBinary size off len data v =>
    simp only [NativeArray.wf, Bool.and_eq_true, Bool.or_eq_true,
      decide_eq_true_eq] at hwf
    obtain ⟨⟨⟨hsz, hcov⟩, h63⟩, hor⟩ := hwf
    simp only [NativeArray.rebase, NativeArray.elems]
    apply List.map_congr_left
    intro i hi
    have hil : i < len := List.mem_range.mp hi
    simp only [Nat.zero_add]
    rw [null_at_import v off len i hil]
    have e1 : size * (off + len) = size * off + size * len := Nat.mul_add size off len
    have e2 : off * size = size * off := Nat.mul_comm off size
    have e3 : size * (i + 1) = size * i + size := by
      rw [Nat.mul_add, Nat.mul_one]
    have e4 : size * (i + 1) ≤ size * len :=
      Nat.mul_le_mul (Nat.le_refl size) (by omega)
    rw [slice_nat_window data (off * size) (size * (off + len) - off * size)
      (size * i) (size * i + size) (by omega)]
    have ha : off * size + size * i = size * (off + i) := by
      have h5 : size * (off + i) = size * off + size * i := Nat.mul_add size off i
      omega
    have hb2 : off * size + (size * i + size) = size * (off + i) + size := by
      have h5 : size * (off + i) = size * off + size * i := Nat.mul_add size off i
      omega
    rw [ha, hb2]
  | list large off len offs c v ih =>
    simp only [NativeArray.wf, Bool.and_eq_true, decide_eq_true_eq] at hwf
    obtain ⟨⟨⟨h1, hcov⟩, h63⟩, hwfc⟩ := hwf
    have ihc := ih hwfc
    simp only [NativeArray.rebase, NativeArray.elems, ihc]
    apply List.map_congr_left
    intro i hi
    have hil : i < len := List.mem_range.mp hi
    simp only [Nat.zero_add]
    rw [null_at_import v off len i hil]
    rw [getD_window offs off (len + 1) i 0 (by omega)]
    rw [getD_window offs off (len + 1) (i + 1) 0 (by omega)]
    rw [← Nat.add_assoc]
  | fixedSizeList size len c v ih =>
    simp only [NativeArray.wf, Bool.and_eq_true, decide_eq_true_eq] at hwf
    obtain ⟨⟨⟨hcov, h63⟩, hdveq⟩, hwfc⟩ := hwf
    have ihc := ih hwfc
    simp only [NativeArray.rebase, NativeArray.elems, ihc]
    apply List.map_congr_left
    intro i hi
    have hil : i < len := List.mem_range.mp hi
    rw [null_at_import v 0 len i hil, Nat.zero_add]
  | map off len offs c v ih =>
    simp only [NativeArray.wf, Bool.and_eq_true, decide_eq_true_eq] at hwf
    obtain ⟨⟨⟨h1, hcov⟩, h63⟩, hwfc⟩ := hwf
    have ihc := ih hwfc
    simp only [NativeArray.rebase, NativeArray.elems, ihc]
    apply List.map_congr_left
    intro i hi
    have hil : i < len := List.mem_range.mp hi
    simp only [Nat.zero_add]
    rw [null_at_import v off len i hil]
    rw [getD_window offs off (len + 1) i 0 (by omega)]
    rw [getD_window offs off (len + 1) (i + 1) 0 (by omega)]
    rw [← Nat.add_assoc]
  | binview utf8 off len views bufs v =>
    simp only [NativeArray.wf, Bool.and_eq_true, decide_eq_true_eq,
      List.all_eq_true] at hwf
    obtain ⟨⟨⟨⟨hvw, hcov⟩, h63⟩, hnb63⟩, hall⟩ := hwf
    simp only [NativeArray.rebase, NativeArray.elems]
    apply List.map_congr_left
    intro i hi
    have hil : i < len := List.mem_range.mp hi
    simp only [Nat.zero_add]
    rw [null_at_import v off len i hil]
    rw [getD_window views off len i 0 hil]
  | dict k o off len keys kv values ih =>
    simp only [NativeArray.wf, Bool.and_eq_true, decide_eq_true_eq] at hwf
    obtain ⟨⟨⟨hk, hcov⟩, h63⟩, hwfv⟩ := hwf
    have ihv := ih hwfv
    simp only [NativeArray.rebase, NativeArray.elems, ihv]
    apply List.map_congr_left
    intro i hi
    have hil : i < len := List.mem_range.mp hi
    simp only [Nat.zero_add]
    rw [null_at_import kv off len i hil]
    rw [getD_window keys off len i 0 hil]

/-- C1: for every well-formed native array of the modelled §4.5 physical
types — sliced arrays with nonzero window offsets included — importing the
ABI struct produced by exporting it succeeds and yields an array equal to the
original in length, in null count, and in every per-element value,
recursively through nested children and the dictionary values pool.  (The
reconstructed array is the original's logical window rebased to offset zero,
and a window without nulls loses its validity bitmap; both leave all three
observations unchanged.) -/
theorem ffi_roundtrip (A : NativeArray) (hwf : A.wf = true) :
    ∃ B : NativeArray, read_array A.dtypeOf (export_array A) = mret B ∧
      B.len = A.len ∧ B.null_count_top = A.null_count_top ∧ B.elems = A.elems :=
  ⟨A.rebase, read_export A hwf, rebase_len A, rebase_null_count_top A,
    rebase_elems A hwf⟩

/-- C1 witness: a dictionary array sliced to the key window `[1, 3)` (one
null key) whose values pool is a map-of-int32 array itself sliced to window
`[1, 2)` round-trips through export and import. -/
theorem ffi_roundtrip_witness :
    ∃ B : NativeArray,
      read_array (NativeArray.dtypeOf (.dict .UInt8 false 1 2 [7, 0, 1]
          (some [false, true, true])
          (.map 1 1 [9, 0, 2] (.primitive .Int32 0 2 [5, 6] none) none)))
        (export_array (.dict .UInt8 false 1 2 [7, 0, 1]
          (some [false, true, true])
          (.map 1 1 [9, 0, 2] (.primitive .Int32 0 2 [5, 6] none) none))) = mret B ∧
      B.len = NativeArray.len (.dict .UInt8 false 1 2 [7, 0, 1]
          (some [false, true, true])
          (.map 1 1 [9, 0, 2] (.primitive .Int32 0 2 [5, 6] none) none)) ∧
      B.null_count_top = NativeArray.null_count_top (.dict .UInt8 false 1 2 [7, 0, 1]
          (some [false, true, true])
          (.map 1 1 [9, 0, 2] (.primitive .Int32 0 2 [5, 6] none) none)) ∧
      B.elems = NativeArray.elems (.dict .UInt8 false 1 2 [7, 0, 1]
          (some [false, true, true])
          (.map 1 1 [9, 0, 2] (.primitive .Int32 0 2 [5, 6] none) none)) :=
  ffi_roundtrip (.dict .UInt8 false 1 2 [7, 0, 1] (some [false, true, true])
    (.map 1 1 [9, 0, 2] (.primitive .Int32 0 2 [5, 6] none) none)) (by decide)
